import Mathlib

/-!
Verification of the crawl-pipeline / e-mail intelligence core of the
scraper-pipeline repository.

The Python sources are shallowly embedded: pure string processing becomes
functions over `List Char` / `String`, Python `float` scores become exact
rationals (every constant in the source is a multiple of 1/10), Python
exceptions become `Except`-valued computations, and the selenium / requests
side effects (navigation, waits, element lookups) become explicit
environment records describing the outcome of each interaction.  Python
`set`s of strings are modelled as insertion-ordered duplicate-free lists;
the process-wide, hash-seed-dependent iteration order that a real Python
set exhibits is modelled by an explicit reordering parameter where it can
influence a result (the pre-sort order in `filter_business_emails`).
-/

namespace PyStr

/-- Python `\s` on the ASCII range: the whitespace characters the source's
regexes and `str.strip()` treat as blanks. -/
def wsChar (c : Char) : Bool :=
  c == ' ' || c == '\t' || c == '\n' || c == '\r' || c == '\x0b' || c == '\x0c'

/-- ASCII lower-casing, Python `str.lower()` on the data we model. -/
def pyLower (s : String) : String := ⟨s.data.map Char.toLower⟩

/-- Python substring containment `needle in hay`. -/
def containsSub (needle : List Char) : List Char → Bool
  | [] => needle.isEmpty
  | c :: cs => needle.isPrefixOf (c :: cs) || containsSub needle cs

/-- Python `s.endswith(t)`. -/
def pyEndsWith (s t : List Char) : Bool := t.isSuffixOf s

/-- Python `s.startswith(t)`. -/
def pyStartsWith (s t : List Char) : Bool := t.isPrefixOf s

/-- Python `s.isdigit()` on ASCII data: nonempty and all decimal digits. -/
def pyIsDigit (s : List Char) : Bool := !s.isEmpty && s.all Char.isDigit

/-- Python `s.split(c)`: full split on a single-character separator. -/
def splitChar (c : Char) : List Char → List (List Char)
  | [] => [[]]
  | x :: xs =>
    match splitChar c xs with
    | [] => [[]]
    | h :: t => if x = c then [] :: h :: t else (x :: h) :: t

/-- Python `a, b = s.split(c)`: succeeds exactly when the separator occurs
exactly once (otherwise the unpacking raises `ValueError`). -/
def pyUnpack2 (c : Char) (s : String) : Option (String × String) :=
  if s.data.count c = 1 then
    some (⟨s.data.takeWhile (· != c)⟩, ⟨(s.data.dropWhile (· != c)).tail⟩)
  else none

/-- Python `a, b = s.split(c, 1)`: succeeds when the separator occurs at
least once, splitting at its first occurrence. -/
def pySplitFirst (c : Char) (s : String) : Option (String × String) :=
  if s.data.contains c then
    some (⟨s.data.takeWhile (· != c)⟩, ⟨(s.data.dropWhile (· != c)).tail⟩)
  else none

/-- Python `s.strip()`, dropping leading and trailing whitespace. -/
def pyStripWs (l : List Char) : List Char :=
  ((l.dropWhile wsChar).reverse.dropWhile wsChar).reverse

/-- Python `s.strip(chars)`, dropping leading and trailing characters from
the given set. -/
def pyStripChars (set : List Char) (l : List Char) : List Char :=
  ((l.dropWhile (set.contains ·)).reverse.dropWhile (set.contains ·)).reverse

/-- One step list of `str.replace`: fuelled structural version (the fuel is
always instantiated with the length of the list, which suffices). -/
def replaceAllF (pat rep : List Char) : Nat → List Char → List Char
  | 0, s => s
  | _, [] => []
  | f + 1, c :: cs =>
    if pat ≠ [] ∧ pat.isPrefixOf (c :: cs) then
      rep ++ replaceAllF pat rep f ((c :: cs).drop pat.length)
    else
      c :: replaceAllF pat rep f cs

/-- Python `s.replace(pat, rep)`: left-to-right, non-overlapping. -/
def replaceAll (pat rep s : List Char) : List Char := replaceAllF pat rep s.length s

/-- Index of the first `>` in a list, used by the HTML-tag stripper. -/
def findGt : List Char → Option Nat
  | [] => none
  | c :: cs => if c = '>' then some 0 else (findGt cs).map (· + 1)

/-- Fuelled worker for `re.sub(r'<[^>]+>', '', s)`: at each `<`, if a later
`>` exists with at least one character in between, the whole span is
dropped; otherwise the `<` is kept and scanning continues. -/
def removeTagsF : Nat → List Char → List Char
  | 0, s => s
  | _, [] => []
  | f + 1, c :: cs =>
    if c = '<' then
      match findGt cs with
      | some (k + 1) => removeTagsF f (cs.drop (k + 2))
      | _ => c :: removeTagsF f cs
    else
      c :: removeTagsF f cs

/-- Python `re.sub(r'<[^>]+>', '', s)`. -/
def removeTags (s : List Char) : List Char := removeTagsF s.length s

end PyStr

section ScratchTests

open PyStr

example : splitChar '.' "acme.com".data = ["acme".data, "com".data] := by decide

example : replaceAll "[at]".data "@".data "info[at]acme".data = "info@acme".data := by decide

example : removeTags "a<b>c".data = "ac".data := by decide

example : pyUnpack2 '@' "info@acme.com" = some ("info", "acme.com") := by decide

end ScratchTests

namespace PyFloat

/-- Python `min` on two rationals (the source's scores are exact multiples
of 1/10, so rational arithmetic models the float arithmetic faithfully on
every value the claims mention). -/
def pyMin (a b : ℚ) : ℚ := if a ≤ b then a else b

/-- Python `max` on two rationals. -/
def pyMax (a b : ℚ) : ℚ := if b ≤ a then a else b

/-- Python `min` on integers (used for the tenths representation of
scores, which the kernel can evaluate). -/
def intMin (a b : Int) : Int := if a ≤ b then a else b

/-- Python `max` on integers. -/
def intMax (a b : Int) : Int := if b ≤ a then a else b

/-- A rational built directly in lowest terms; its numerator and
denominator are literal fields, so kernel evaluation can read them off
(rationals produced by `/` go through `Nat.gcd`, which the kernel cannot
reduce). -/
def ratRaw (n : Int) (d : Nat) (h1 : d ≠ 0) (h2 : n.natAbs.Coprime d) : ℚ := ⟨n, d, h1, h2⟩

/-- The default `min_score = 0.3` of the source, in kernel-evaluable form. -/
def minScoreDefault : ℚ := ratRaw 3 10 (by decide) (by norm_num)

/-- Decision of `m ≤ t/10` for a rational threshold `m` and a score `t` in
tenths, by cross-multiplication; all operations kernel-reduce. -/
def leTenths (m : ℚ) (t : Int) : Bool := decide (m.num * 10 ≤ t * (m.den : Int))

theorem leTenths_iff (m : ℚ) (t : Int) : leTenths m t = true ↔ m ≤ (t : ℚ) / 10 := by
  unfold leTenths
  rw [decide_eq_true_iff]
  have hden : (0 : ℚ) < (m.den : ℚ) := by exact_mod_cast m.pos
  have hm : m = (m.num : ℚ) / (m.den : ℚ) := (Rat.num_div_den m).symm
  constructor
  · intro h
    rw [hm, div_le_div_iff₀ hden (by norm_num)]
    exact_mod_cast h
  · intro h
    rw [hm, div_le_div_iff₀ hden (by norm_num)] at h
    exact_mod_cast h

theorem minScoreDefault_eq : minScoreDefault = 3 / 10 := by
  have h := (Rat.num_div_den minScoreDefault).symm
  norm_num [show (minScoreDefault).num = 3 from rfl, show (minScoreDefault).den = 10 from rfl] at h
  exact h

end PyFloat

namespace PyRe

open PyStr

/-- The regular-expression constructs the source's four e-mail patterns
use: a greedy character class with a minimum repetition count (`X+`,
`X{2,}`, `\s*`), a literal (case-insensitive, as all four patterns carry
`re.IGNORECASE`), and a word boundary `\b`. -/
inductive RTok
  | cls (p : Char → Bool) (mn : Nat)
  | lit (s : List Char)
  | wb

/-- Python regex word characters (`\w` on the ASCII data we model). -/
def wordChar (c : Char) : Bool := c.isAlphanum || c == '_'

/-- A word boundary sits between a word character and a non-word character
(ends of the text count as non-word). -/
def boundary (prev next : Option Char) : Bool :=
  (match prev with | some c => wordChar c | none => false) !=
    (match next with | some c => wordChar c | none => false)

/-- Case-insensitive character comparison. -/
def ciEq (a b : Char) : Bool := a.toLower == b.toLower

/-- Case-insensitive prefix test for literals. -/
def ciPrefix : List Char → List Char → Bool
  | [], _ => true
  | _ :: _, [] => false
  | a :: as, b :: bs => ciEq a b && ciPrefix as bs

/-- Length of the maximal run of class characters, the greedy first try. -/
def countRun (p : Char → Bool) (l : List Char) : Nat := (l.takeWhile p).length

/-- The last character of `l`, or the fallback when `l` is empty (tracking
the previous character for `\b`). -/
def lastOr (l : List Char) (d : Option Char) : Option Char :=
  match l.getLast? with
  | some c => some c
  | none => d

/-- Greedy backtracking for a class token: try to consume `k` characters,
retrying downwards until the minimum count, then hand over to the
continuation (the match of the remaining tokens). -/
def descend (cont : Option Char → List Char → Option Nat) (prev : Option Char)
    (rest : List Char) (mn : Nat) : Nat → Option Nat
  | 0 =>
    if mn = 0 then cont prev rest else none
  | k + 1 =>
    if k + 1 < mn then none
    else
      match cont (lastOr (rest.take (k + 1)) prev) (rest.drop (k + 1)) with
      | some m => some (k + 1 + m)
      | none => descend cont prev rest mn k

/-- Backtracking matcher: the number of characters a match of the token
list consumes at the current position, with Python's greedy-first
exploration order, or `none` when no match starts here. -/
def tryMatch : List RTok → Option Char → List Char → Option Nat
  | [], _, _ => some 0
  | .wb :: ts, prev, rest =>
    if boundary prev rest.head? then tryMatch ts prev rest else none
  | .lit s :: ts, prev, rest =>
    if ciPrefix s rest then
      match tryMatch ts (lastOr (rest.take s.length) prev) (rest.drop s.length) with
      | some m => some (s.length + m)
      | none => none
    else none
  | .cls p mn :: ts, prev, rest =>
    descend (tryMatch ts) prev rest mn (countRun p rest)

/-- Fuelled scan of `re.findall`: at each position try the pattern; on a
(non-empty) match record it and continue after its end, otherwise advance
one character.  The fuel is instantiated with the text length. -/
def findallAux (toks : List RTok) : Nat → Option Char → List Char → List (List Char)
  | 0, _, _ => []
  | f + 1, prev, s =>
    match s with
    | [] => []
    | c :: cs =>
      match tryMatch toks prev (c :: cs) with
      | some (k + 1) =>
        (c :: cs).take (k + 1) ::
          findallAux toks f (lastOr ((c :: cs).take (k + 1)) prev) ((c :: cs).drop (k + 1))
      | _ => findallAux toks f (some c) cs

/-- Python `re.findall(pattern, text)` for the modelled patterns. -/
def findall (toks : List RTok) (text : String) : List String :=
  (findallAux toks text.data.length none text.data).map (fun l => ⟨l⟩)

end PyRe

namespace EmailExtractor

open PyStr PyFloat

/-- The webmail providers of `EmailExtractor.business_domains` (despite the
name, membership lowers the score). -/
def business_domains : List String :=
  ["gmail.com", "yahoo.com", "hotmail.com", "outlook.com", "aol.com",
   "icloud.com", "me.com", "live.com", "msn.com", "ymail.com"]

/-- The exclusion list `EmailExtractor.excluded_domains`, in source order. -/
def excluded_domains : List String :=
  ["example.com", "test.com", "localhost", "domain.com", "mydomain.com",
   "google.com", "facebook.com", "twitter.com", "linkedin.com",
   "instagram.com", "youtube.com", "microsoft.com", "apple.com",
   "criteo.com", "criteo.com.we", "criteo.net",
   "reppublika.com", "reppublika.com.reppublika",
   "visable.com", "visable.comvisable",
   "googletagmanager.com", "google-analytics.com",
   "hotjar.com", "mixpanel.com", "segment.com",
   "intercom.io", "zendesk.com", "freshdesk.com",
   "salesforce.com", "hubspot.com", "marketo.com",
   "sentry.io", "rollbar.com", "newrelic.com", "datadog.com",
   "cookiebot.com", "onetrust.com", "privacymanager.io",
   "cookielaw.org", "iubenda.com", "termly.io",
   "doubleclick.net", "adsense.com", "adroll.com",
   "adnxs.com", "taboola.com", "outbrain.com",
   "cloudflare.com", "akamai.com", "fastly.com",
   "amazonaws.com", "heroku.com", "netlify.com",
   "stripe.com", "paypal.com", "square.com",
   "noreply.com", "no-reply.com", "donotreply.com"]

/-- The business-style local-part openers `EmailExtractor.business_prefixes`. -/
def business_prefixes : List String :=
  ["info", "contact", "sales", "support", "admin", "office",
   "hello", "enquiry", "inquiry", "business", "service",
   "mail", "reception", "booking", "reservation", "export",
   "order", "purchase", "commercial", "wholesale", "retail",
   "marketing", "press", "media", "hr", "careers", "jobs",
   "webmaster", "postmaster", "hostmaster", "billing"]

/-- The placeholder tokens checked inside `score_email_business_relevance`. -/
def placeholderWords : List String :=
  ["test", "fake", "example", "noreply", "no-reply"]

/-- The punctuation set of the final `strip` in `clean_email`. -/
def stripSet : List Char := ".,;:!?()[]{}\"'-".data

/-- The processing chain of `clean_email` between the truthiness checks:
drop HTML-tag-like spans, strip outer whitespace, collapse the four
obfuscation markers, remove all whitespace, strip outer punctuation. -/
def cleanPipeline (s : List Char) : List Char :=
  pyStripChars stripSet
    ((replaceAll "(dot)".data ".".data
      (replaceAll "[dot]".data ".".data
        (replaceAll "(at)".data "@".data
          (replaceAll "[at]".data "@".data
            (pyStripWs (removeTags s)))))).filter (fun c => !wsChar c))

/-- Embedding of `EmailExtractor.clean_email`; `none` models Python's
falsy returns. -/
def clean_email (email : String) : Option String :=
  if email = "" then none
  else if (cleanPipeline email.data).isEmpty then none
  else some ⟨cleanPipeline email.data⟩

/-- Characters the source regexes allow in a local part. -/
def localChar (c : Char) : Bool :=
  c.isAlphanum || c == '.' || c == '_' || c == '%' || c == '+' || c == '-'

/-- Characters the source regexes allow in a domain. -/
def domChar (c : Char) : Bool := c.isAlphanum || c == '.' || c == '-'

/-- Characters of the source's TLD class `[A-Z|a-z]` (which literally
contains the pipe character). -/
def tldChar (c : Char) : Bool := c.isAlpha || c == '|'

/-- Characters of a domain label for the syntactic validator. -/
def labChar (c : Char) : Bool := c.isAlphanum || c == '-'

/-- Modelled from the spec: the third-party `validators.email` call, whose
code is not part of this repository.  The spec requires "syntactic
well-formedness (a recognized local-part/domain/TLD shape)": a nonempty
local part of the usual local characters, exactly one `@`, at least two
dot-separated nonempty alphanumeric-or-hyphen labels, and an alphabetic
top-level label of length at least two. -/
def validatorsEmail (email : String) : Bool :=
  match pyUnpack2 '@' email with
  | none => false
  | some (l, d) =>
    let labels := splitChar '.' d.data
    !l.data.isEmpty && l.data.all localChar &&
      decide (2 ≤ labels.length) &&
      labels.all (fun lab => !lab.isEmpty && lab.all labChar) &&
      (match labels.getLast? with
       | some t => decide (2 ≤ t.length) && t.all Char.isAlpha
       | none => false)

/-- The domain `is_valid_email` checks against the exclusion list:
`email.split('@')[1].lower()`, the text between the first and second `@`. -/
def domainOf (email : String) : String :=
  pyLower ⟨(splitChar '@' email.data).getD 1 []⟩

/-- Embedding of `EmailExtractor.is_valid_email`: nonempty, contains `@`,
passes the (modelled) `validators.email` check, its domain (the text
between the first and second `@`, lower-cased) is not on the exclusion
list, and the domain has a final dot-separated segment of length ≥ 2. -/
def is_valid_email (email : String) : Bool :=
  if email = "" then false
  else if !email.data.contains '@' then false
  else if !validatorsEmail email then false
  else
    let domain := domainOf email
    if domain ∈ excluded_domains then false
    else if !domain.data.contains '.' then false
    else decide (2 ≤ ((splitChar '.' domain.data).getLast?.getD []).length)

/-- Embedding of `EmailExtractor.score_email_business_relevance`, with the
score carried in integer tenths (every constant of the source is a multiple
of 0.1, so this is exact); `none` models the `ValueError` Python raises
when the address does not contain exactly one `@`. -/
def scoreT (email : String) : Option Int :=
  if email = "" then some 0
  else
    match pyUnpack2 '@' email with
    | none => none
    | some (lp, dm) =>
      let l := pyLower lp
      let d := pyLower dm
      let s1 : Int := 5
      let s2 := if business_prefixes.any (fun p => pyStartsWith l.data p.data) then s1 + 3 else s1
      let s3 := if d ∈ business_domains then s2 - 2
                else if d ∉ business_domains then s2 + 2 else s2
      let s4 := if placeholderWords.any (fun w => containsSub w.data l.data) then s3 - 4 else s3
      let s5 := if l.data.length ≤ 10 then s4 + 1
                else if 20 < l.data.length then s4 - 1 else s4
      some (intMax 0 (intMin 10 s5))

/-- The score as the rational the Python function returns. -/
def score_email_business_relevance (email : String) : Option ℚ :=
  (scoreT email).map (fun t => (t : ℚ) / 10)

/-- The pair test of `_deduplicate_parsing_errors`: `e1` is removed when the
set holds another address `e2` with the same domain whose local part is a
strict suffix of `e1`'s with a purely numeric prefix in front. -/
def removedByPair (emails : List String) (e1 : String) : Bool :=
  match pySplitFirst '@' e1 with
  | none => false
  | some (l1, d1) =>
    emails.any (fun e2 =>
      e1 != e2 &&
        (match pySplitFirst '@' e2 with
         | none => false
         | some (l2, d2) =>
           d1 == d2 && decide (l2.data.length < l1.data.length) &&
             pyEndsWith l1.data l2.data &&
             pyIsDigit (l1.data.take (l1.data.length - l2.data.length))))

/-- Embedding of `EmailExtractor._deduplicate_parsing_errors` over the
insertion-ordered list that models the Python set; the `in to_remove`
short-cut of the source does not change which elements end up removed. -/
def deduplicate_parsing_errors (emails : List String) : List String :=
  emails.filter (fun e => !removedByPair emails e)

/-- Pattern 1 of `email_patterns`:
`\b[A-Za-z0-9._%+-]+@[A-Za-z0-9.-]+\.[A-Z|a-z]{2,}\b`. -/
def pattern1 : List PyRe.RTok :=
  [.wb, .cls localChar 1, .lit "@".data, .cls domChar 1, .lit ".".data, .cls tldChar 2, .wb]

/-- Pattern 2, the standard shape with incidental whitespace:
`\b[A-Za-z0-9._%+-]+\s*@\s*[A-Za-z0-9.-]+\s*\.\s*[A-Z|a-z]{2,}\b`. -/
def pattern2 : List PyRe.RTok :=
  [.wb, .cls localChar 1, .cls wsChar 0, .lit "@".data, .cls wsChar 0,
   .cls domChar 1, .cls wsChar 0, .lit ".".data, .cls wsChar 0, .cls tldChar 2, .wb]

/-- Pattern 3, the bracket obfuscation (note: no whitespace tolerance):
`\b[A-Za-z0-9._%+-]+\[at\][A-Za-z0-9.-]+\[dot\][A-Z|a-z]{2,}\b`. -/
def pattern3 : List PyRe.RTok :=
  [.wb, .cls localChar 1, .lit "[at]".data, .cls domChar 1, .lit "[dot]".data, .cls tldChar 2, .wb]

/-- Pattern 4, the parenthesis obfuscation with whitespace tolerance:
`\b[A-Za-z0-9._%+-]+\s*\(at\)\s*[A-Za-z0-9.-]+\s*\(dot\)\s*[A-Z|a-z]{2,}\b`. -/
def pattern4 : List PyRe.RTok :=
  [.wb, .cls localChar 1, .cls wsChar 0, .lit "(at)".data, .cls wsChar 0,
   .cls domChar 1, .cls wsChar 0, .lit "(dot)".data, .cls wsChar 0, .cls tldChar 2, .wb]

/-- The compiled pattern family `email_patterns`, in source order. -/
def email_patterns : List (List PyRe.RTok) := [pattern1, pattern2, pattern3, pattern4]

/-- Insertion into the insertion-ordered list modelling a Python set. -/
def setAdd (l : List String) (x : String) : List String := if x ∈ l then l else l ++ [x]

/-- Embedding of `EmailExtractor.extract_emails_from_text`: run each
pattern's `findall`, clean each match, validate, and add the lower-cased
address to the set. -/
def extract_emails_from_text (text : String) : List String :=
  email_patterns.foldl (fun acc toks =>
    (PyRe.findall toks text).foldl (fun acc2 m =>
      match clean_email m with
      | none => acc2
      | some e => if is_valid_email e then setAdd acc2 (pyLower e) else acc2) acc) []

/-- Stable descending insertion: the element being inserted goes after all
already-placed elements whose score is at least its own.  Folding the
scored list left-to-right through this models Python's stable
`list.sort(key=score, reverse=True)`. -/
def insertDesc (x : String × Int) : List (String × Int) → List (String × Int)
  | [] => [x]
  | y :: ys => if y.2 < x.2 then x :: y :: ys else y :: insertDesc x ys

/-- Python's stable sort by descending score. -/
def sortDesc (l : List (String × Int)) : List (String × Int) :=
  l.foldl (fun acc x => insertDesc x acc) []

/-- Embedding of `EmailExtractor.filter_business_emails`.  `hashOrder`
models the process-wide set-iteration order of the Python set the caller
hands in (fixed by the interpreter's hash seed for the whole run); `none`
models the `ValueError` that scoring would raise on an address without
exactly one `@`. -/
def filter_business_emails (hashOrder : List String → List String)
    (emails : List String) (minScore : ℚ) : Option (List String) :=
  match (hashOrder emails).mapM (fun e => (scoreT e).map (fun t => (e, t))) with
  | none => none
  | some scored =>
    some ((sortDesc (scored.filter (fun p => leTenths minScore p.2))).map Prod.fst)

/-- The parsed view of a markup string that `extract_emails_from_html`
consumes, produced by the (pure, deterministic) BeautifulSoup parser:
the `href` attributes of the anchor elements in document order, the
whitespace-joined page text, and the texts of the elements matched by the
`email_selectors` list, flattened in the loop order of the source. -/
structure Doc where
  anchorHrefs : List String
  pageText : String
  selectorTexts : List String
deriving DecidableEq, Inhabited

/-- The capture of `re.search(r'mailto:([^?&]+)', href, re.I)`: after the
first `mailto:` (scanning on, as the regex engine does, when the capture
would be empty), the maximal nonempty run of non-`?`/`&` characters. -/
def mailtoCaptureAux : List Char → Option (List Char)
  | [] => none
  | c :: cs =>
    if PyRe.ciPrefix "mailto:".data (c :: cs) then
      let cap := ((c :: cs).drop 7).takeWhile (fun ch => !(ch == '?' || ch == '&'))
      if cap.isEmpty then mailtoCaptureAux cs else some cap
    else mailtoCaptureAux cs

/-- Python `re.search(r'mailto:([^?&]+)', href, re.I)`, the captured group. -/
def mailtoCapture (href : String) : Option String :=
  (mailtoCaptureAux href.data).map (fun l => ⟨l⟩)

/-- Embedding of `EmailExtractor.extract_emails_from_html`: mailto targets
first, then the page text, then the likely-contact containers, each
cleaned and validated, and finally the parsing-error de-duplication over
the accumulated set. -/
def extract_emails_from_html (doc : Doc) : List String :=
  let s1 := doc.anchorHrefs.foldl (fun acc href =>
    if PyRe.ciPrefix "mailto:".data href.data then
      match mailtoCapture href with
      | none => acc
      | some cap =>
        match clean_email cap with
        | none => acc
        | some e => if is_valid_email e then setAdd acc (pyLower e) else acc
    else acc) []
  let s2 := (extract_emails_from_text doc.pageText).foldl setAdd s1
  let s3 := doc.selectorTexts.foldl (fun acc t =>
    (extract_emails_from_text t).foldl setAdd acc) s2
  deduplicate_parsing_errors s3

/-- The content argument of `extract_and_filter_emails`: a markup page
(already parsed, see `Doc`) when `content_type = 'html'`, raw text
otherwise. -/
inductive Content
  | page (d : Doc)
  | raw (t : String)

/-- Embedding of `EmailExtractor.extract_and_filter_emails`, the engine's
entry point. -/
def extract_and_filter_emails (hashOrder : List String → List String)
    (c : Content) (minScore : ℚ) : Option (List String) :=
  match c with
  | .page d => filter_business_emails hashOrder (extract_emails_from_html d) minScore
  | .raw t => filter_business_emails hashOrder (extract_emails_from_text t) minScore

end EmailExtractor

section ScratchTests3

open EmailExtractor

example : PyRe.findall pattern1 "Contact us: info@acme.com ok" = ["info@acme.com"] := by decide

example : extract_emails_from_text "Contact us: info [at] acme [dot] com" = [] := by decide

example : extract_emails_from_text "Contact us: info[at]acme[dot]com" = ["info@acme.com"] := by
  decide

example : extract_emails_from_text "Contact us: info (at) acme (dot) com" = ["info@acme.com"] := by
  decide

example : extract_and_filter_emails id (.raw "Contact us: info[at]acme[dot]com")
    PyFloat.minScoreDefault = some ["info@acme.com"] := by decide

example : extract_and_filter_emails id
    (.page ⟨["mailto:sales@acme.com"], "reach someone@mail.doubleclick.net now", []⟩)
    PyFloat.minScoreDefault = some ["sales@acme.com", "someone@mail.doubleclick.net"] := by decide

end ScratchTests3

namespace Scraper

open PyStr

/-- The outcome of successfully rendering one listing page: the `href`
attributes of the elements matched by the profile-link selector (an
element may lack the attribute) and whether a next-page control exists. -/
structure PageRes where
  hrefs : List (Option String)
  hasNext : Bool

/-- The world a sequential pagination walk runs against: for each page
number either the rendered page or a failure (timeout waiting for the
profile links, navigation error), plus `urllib.parse.urljoin` (standard
library, treated as an opaque pure function). -/
structure WalkEnv where
  page : Nat → Except Unit PageRes
  urljoin : String → String → String

/-- The link-accumulation loop of `extract_company_profiles`: resolve each
href against the base URL, skipping falsy values and duplicates. -/
def addLinks (env : WalkEnv) (base : String) (links : List String)
    (hrefs : List (Option String)) : List String :=
  hrefs.foldl (fun acc h =>
    match h with
    | none => acc
    | some u =>
      if u = "" then acc
      else
        let r := if pyStartsWith u.data "http".data then u else env.urljoin base u
        if r = "" then acc else if r ∈ acc then acc else acc ++ [r]) links

/-- The `while current_page <= max_pages` loop of the selenium
`extract_company_profiles`, fuelled (the fuel `maxPages + 1` covers every
iteration).  Breaks: fetch/wait failure, an empty first page, or a missing
next-page control (this last one after collecting the page's links).  The
function returns `list(links)` and `current_page - 1`. -/
def walkAux (env : WalkEnv) (base : String) (maxPages : Nat) :
    Nat → Nat → List String → List String × Nat
  | 0, current, links => (links, current - 1)
  | f + 1, current, links =>
    if maxPages < current then (links, current - 1)
    else
      match env.page current with
      | .error _ => (links, current - 1)
      | .ok p =>
        if p.hrefs.isEmpty ∧ current = 1 then (links, current - 1)
        else
          let links2 := addLinks env base links p.hrefs
          if p.hasNext then walkAux env base maxPages f (current + 1) links2
          else (links2, current - 1)

/-- Embedding of `SeleniumScraper.extract_company_profiles`. -/
def extract_company_profiles (env : WalkEnv) (base : String) (maxPages : Nat) :
    List String × Nat :=
  walkAux env base maxPages (maxPages + 1) 1 []

/-- The loop of `RequestsScraper.extract_company_profiles`: the same walk
shape without the empty-first-page break, returning only the links (the
static scraper keeps no page count). -/
def requestsWalkAux (env : WalkEnv) (base : String) (maxPages : Nat) :
    Nat → Nat → List String → List String
  | 0, _, links => links
  | f + 1, current, links =>
    if maxPages < current then links
    else
      match env.page current with
      | .error _ => links
      | .ok p =>
        let links2 := addLinks env base links p.hrefs
        if p.hasNext then requestsWalkAux env base maxPages f (current + 1) links2
        else links2

/-- Embedding of `RequestsScraper.extract_company_profiles`. -/
def requests_extract_company_profiles (env : WalkEnv) (base : String)
    (maxPages : Nat) : List String :=
  requestsWalkAux env base maxPages (maxPages + 1) 1 []

/-- The exception kinds the selenium worker's handlers distinguish:
`TimeoutException` (a subclass of `WebDriverException`), another
`WebDriverException` (tagged with whether its message names
`net::ERR_NAME_NOT_RESOLVED`), or any other `Exception`. -/
inductive PyErr
  | timeout
  | webdriver (nameNotResolved : Bool)
  | otherErr
deriving DecidableEq

/-- Result of `driver.find_element` for one contact keyword:
`NoSuchElementException` (the keyword loop continues), an element with its
`href` attribute (possibly absent), or some other raised error. -/
inductive FindRes
  | noSuch
  | foundHref (href : Option String)
  | raised (e : PyErr)

/-- One rendered page as a worker's driver sees it: the page source handed
to the e-mail engine (parsed, see `Doc`) and the XPath contact-link search
outcome per keyword. -/
structure SelPage where
  doc : EmailExtractor.Doc
  findContact : String → FindRes

/-- The world one selenium profile-worker task runs against.  Navigation,
waits and rendered pages are keyed by URL; the per-profile element waits
are single fields since a task visits one profile.  `hashOrder` is the
process-wide set-iteration order (see `filter_business_emails`). -/
structure SelEnv where
  setup : Except PyErr Unit
  get : String → Except PyErr Unit
  bodyWait : String → Except PyErr Unit
  pageAt : String → SelPage
  cookieWait : Except PyErr Unit
  cookieClick : Except PyErr Unit
  nameEl : Except PyErr String
  addressEl : Except PyErr String
  countryEl : Except PyErr String
  websiteEl : Except PyErr (Option String)
  urljoin : String → String → String
  hashOrder : List String → List String

/-- The details record the selenium worker builds; `email_source` carries
the source's string values `not_found` / `main_page` / `contact_page`. -/
structure SelDetails where
  name : Option String
  address : Option String
  country : Option String
  website : Option String
  email_source : String
deriving DecidableEq

/-- The record as initialised at the top of `_process_single_profile`. -/
def emptyDetails : SelDetails := ⟨none, none, none, none, "not_found"⟩

/-- The selenium worker's contact keywords (the file stores a
mojibake-encoded form of the third keyword, reproduced as stored). -/
def contactKeywordsSel : List String :=
  ["contact", "kontakt", "iletiÅŸim", "contacto", "contatto"]

/-- The requests worker's contact keywords. -/
def contactKeywordsReq : List String :=
  ["contact", "kontakt", "iletişim", "contacto", "contatto"]

/-- Outcome of the selenium contact-keyword loop: an error raised inside
it, a break with the resolved contact URL, or falling through the list
with no truthy href (in which case the code skips the contact fetch). -/
inductive ContactOut
  | raisedO (e : PyErr)
  | broke (resolved : String)
  | fell

/-- The selenium contact-keyword loop.  It searches the page the driver is
currently on; a found element with a truthy href is resolved against the
website URL and breaks the loop, a falsy href or a missing element moves
to the next keyword, any other error escapes to the surrounding handler. -/
def contactLoopSel (page : SelPage) (urljoinF : String → String → String)
    (websiteUrl : String) : List String → ContactOut
  | [] => .fell
  | k :: ks =>
    match page.findContact k with
    | .noSuch => contactLoopSel page urljoinF websiteUrl ks
    | .raised e => .raisedO e
    | .foundHref none => contactLoopSel page urljoinF websiteUrl ks
    | .foundHref (some u) =>
      if u = "" then contactLoopSel page urljoinF websiteUrl ks
      else .broke (if pyStartsWith u.data "http".data then u else urljoinF websiteUrl u)

/-- The worker's inner try around the company-website visit.  Every
exception raised inside is caught by the `except WebDriverException` /
`except Exception` pair (which only log), so the block is total; an exit
before the final assignment leaves the e-mail list empty.  After
`driver.get(u)` succeeds the driver is on the company website, so the
contact search runs against `env.pageAt u` — the website's markup. -/
def websiteBlock (env : SelEnv) (u : String) (st : SelDetails) :
    SelDetails × List String :=
  match env.get u with
  | .error _ => (st, [])
  | .ok _ =>
  match env.bodyWait u with
  | .error _ => (st, [])
  | .ok _ =>
  match EmailExtractor.extract_and_filter_emails env.hashOrder
      (.page (env.pageAt u).doc) PyFloat.minScoreDefault with
  | none => (st, [])
  | some found =>
    if found.isEmpty then
      match contactLoopSel (env.pageAt u) env.urljoin u contactKeywordsSel with
      | .raisedO _ => (st, [])
      | .fell => (st, [])
      | .broke r =>
        if r = "" then (st, [])
        else
          match env.get r with
          | .error _ => (st, [])
          | .ok _ =>
          match env.bodyWait r with
          | .error _ => (st, [])
          | .ok _ =>
          match EmailExtractor.extract_and_filter_emails env.hashOrder
              (.page (env.pageAt r).doc) PyFloat.minScoreDefault with
          | none => (st, [])
          | some found2 =>
            if found2.isEmpty then (st, found2)
            else ({st with email_source := "contact_page"}, found2)
    else ({st with email_source := "main_page"}, found)

/-- State returned per profile: the details record and the e-mail list. -/
abbrev WSt := SelDetails × List String

/-- The body of `_process_single_profile` up to (not including) the outer
`except Exception`: an error carries the partially built state the outer
handler would return.  Within a field lookup only `TimeoutException` is
caught (the field stays absent); any other error escapes.  The cookie
block catches only a timeout of its wait. -/
def processBody (env : SelEnv) (profileUrl : String) : Except (PyErr × WSt) WSt :=
  match env.setup with
  | .error e => .error (e, (emptyDetails, []))
  | .ok _ =>
  match env.get profileUrl with
  | .error e => .error (e, (emptyDetails, []))
  | .ok _ =>
  match (match env.cookieWait with
         | .error PyErr.timeout => Except.ok ()
         | .error e => Except.error e
         | .ok _ => env.cookieClick) with
  | .error e => .error (e, (emptyDetails, []))
  | .ok _ =>
  let afterName : Except (PyErr × WSt) SelDetails :=
    match env.nameEl with
    | .ok v => .ok {emptyDetails with name := some v}
    | .error PyErr.timeout => .ok emptyDetails
    | .error e => .error (e, (emptyDetails, []))
  match afterName with
  | .error e => .error e
  | .ok d1 =>
  let afterAddress : Except (PyErr × WSt) SelDetails :=
    match env.addressEl with
    | .ok v => .ok {d1 with address := some v}
    | .error PyErr.timeout => .ok d1
    | .error e => .error (e, (d1, []))
  match afterAddress with
  | .error e => .error e
  | .ok d2 =>
  let afterCountry : Except (PyErr × WSt) SelDetails :=
    match env.countryEl with
    | .ok v => .ok {d2 with country := some v}
    | .error PyErr.timeout => .ok d2
    | .error e => .error (e, (d2, []))
  match afterCountry with
  | .error e => .error e
  | .ok d3 =>
  match env.websiteEl with
  | .error PyErr.timeout => .ok (d3, [])
  | .error e => .error (e, (d3, []))
  | .ok href =>
    let d4 := {d3 with website := href}
    match href with
    | none => .ok (d4, [])
    | some u => if u = "" then .ok (d4, []) else .ok (websiteBlock env u d4)

/-- `_process_single_profile` as its caller sees it: the outer
`except Exception` turns every escaped error into a normal return of the
partially built record. -/
def processSingleProfileExc (env : SelEnv) (profileUrl : String) :
    Except PyErr WSt :=
  match processBody env profileUrl with
  | .ok r => .ok r
  | .error (_, st) => .ok st

/-- The value `_process_single_profile` returns. -/
def processSingleProfile (env : SelEnv) (profileUrl : String) : WSt :=
  match processSingleProfileExc env profileUrl with
  | .ok r => r
  | .error _ => (emptyDetails, [])

/-- Order-preserving indexed map, the semantics of `executor.map` over the
enumerated URL list: results are collected in input order regardless of
task completion order. -/
def mapWithIndex (f : Nat → String → WSt) : Nat → List String → List WSt
  | _, [] => []
  | i, u :: us => f i u :: mapWithIndex f (i + 1) us

/-- Embedding of `extract_details_and_emails_parallel`: the task at index
`i` runs in its own world `envs i` (its own handler and driver), and the
two output lists are the per-index projections of the collected results. -/
def extract_details_and_emails_parallel (envs : Nat → SelEnv)
    (urls : List String) : List SelDetails × List (List String) :=
  let results := mapWithIndex (fun i u => processSingleProfile (envs i) u) 0 urls
  (results.map Prod.fst, results.map Prod.snd)

/-- One fetched page as the static-HTTP scraper parses it: the texts the
three detail selectors match (if any), the optional website element with
its optional `href`, the result of `soup.find('a', text=re.compile(k,
re.I))` per contact keyword (`some h` is a found anchor with `href`-value
`h`), and the page's parsed view for the e-mail engine. -/
structure RPage where
  nameText : Option String
  addressText : Option String
  countryText : Option String
  websiteEl : Option (Option String)
  findAnchor : String → Option (Option String)
  doc : EmailExtractor.Doc

/-- The world of the static-HTTP scraper: a fetch (whose failure is a
`requests.RequestException` — the only kind its handlers catch), the URL
resolver and the process-wide set order. -/
structure ReqEnv where
  fetch : String → Except Unit RPage
  urljoin : String → String → String
  hashOrder : List String → List String

/-- The details record of the static-HTTP scraper: four fields, and no
`email_source`. -/
structure RDetails where
  name : Option String
  address : Option String
  country : Option String
  website : Option String
deriving DecidableEq

/-- The record as initialised per profile in the requests loop. -/
def emptyRDetails : RDetails := ⟨none, none, none, none⟩

/-- The requests contact-keyword loop, which searches the anchors of the
page it is given.  Only a found anchor with a truthy href assigns and
breaks; otherwise the loop moves on. -/
def contactLoopReq (page : RPage) : List String → Option String
  | [] => none
  | k :: ks =>
    match page.findAnchor k with
    | none => contactLoopReq page ks
    | some none => contactLoopReq page ks
    | some (some u) => if u = "" then contactLoopReq page ks else some u

/-- The per-profile body of `RequestsScraper.extract_details_and_emails`.
The per-profile try and the website try catch only
`requests.RequestException`; an exception out of the e-mail engine (a
scoring `ValueError`, modelled by `none` from the engine) is caught by
neither and escapes the whole loop, hence the `Except`.  The contact
search runs on `page` — the profile page's soup, the only soup the
function ever builds. -/
def requestsProcessProfile (env : ReqEnv) (profileUrl : String) :
    Except Unit (RDetails × List String) :=
  match env.fetch profileUrl with
  | .error _ => .ok (emptyRDetails, [])
  | .ok page =>
    let d1 : RDetails :=
      { name := page.nameText.map (fun t => (⟨pyStripWs t.data⟩ : String))
        address := page.addressText.map (fun t => (⟨pyStripWs t.data⟩ : String))
        country := page.countryText.map (fun t => (⟨pyStripWs t.data⟩ : String))
        website := none }
    match page.websiteEl with
    | none => .ok (d1, [])
    | some h =>
      let d2 := {d1 with website := h}
      match h with
      | none => .ok (d2, [])
      | some u =>
        if u = "" then .ok (d2, [])
        else
          match env.fetch u with
          | .error _ => .ok (d2, [])
          | .ok wpage =>
            match EmailExtractor.extract_and_filter_emails env.hashOrder
                (.page wpage.doc) PyFloat.minScoreDefault with
            | none => .error ()
            | some found =>
              if found.isEmpty then
                match contactLoopReq page contactKeywordsReq with
                | none => .ok (d2, found)
                | some href =>
                  let contactUrl := env.urljoin u href
                  match env.fetch contactUrl with
                  | .error _ => .ok (d2, [])
                  | .ok cpage =>
                    match EmailExtractor.extract_and_filter_emails env.hashOrder
                        (.page cpage.doc) PyFloat.minScoreDefault with
                    | none => .error ()
                    | some found2 => .ok (d2, found2)
              else .ok (d2, found)

/-- The sequential loop of `RequestsScraper.extract_details_and_emails`,
appending one record pair per profile; an escaped exception aborts the
whole loop with nothing returned. -/
def requestsExtractDetails (env : ReqEnv) :
    List String → Except Unit (List RDetails × List (List String))
  | [] => .ok ([], [])
  | u :: us =>
    match requestsProcessProfile env u with
    | .error e => .error e
    | .ok (d, em) =>
      match requestsExtractDetails env us with
      | .error e => .error e
      | .ok (ds, ems) => .ok (d :: ds, em :: ems)

/-- The value kinds appearing in the two scrape result dicts. -/
inductive PyVal
  | vStrList (l : List String)
  | vSelDetails (l : List SelDetails)
  | vRDetails (l : List RDetails)
  | vEmails (l : List (List String))
  | vNat (n : Nat)
deriving DecidableEq

/-- Python dict lookup `d[k]`, `none` modelling a `KeyError`. -/
def pyLookup (k : String) (d : List (String × PyVal)) : Option PyVal :=
  (d.find? (fun p => p.1 == k)).map Prod.snd

/-- Embedding of `SeleniumScraper.scrape`: the sequential walk, the
parallel detail pass, and the literal result dict with its four keys. -/
def seleniumScrape (wenv : WalkEnv) (envs : Nat → SelEnv) (base : String)
    (maxPages : Nat) : List (String × PyVal) :=
  let walked := extract_company_profiles wenv base maxPages
  let results := extract_details_and_emails_parallel envs walked.1
  [("company_profiles", .vStrList walked.1),
   ("details", .vSelDetails results.1),
   ("emails", .vEmails results.2),
   ("pages_scraped", .vNat walked.2)]

/-- Embedding of `RequestsScraper.scrape`: the walk, the sequential detail
pass, and the literal result dict — three keys, no `pages_scraped`. -/
def requestsScrape (env : ReqEnv) (wenv : WalkEnv) (base : String)
    (maxPages : Nat) : Except Unit (List (String × PyVal)) :=
  match requestsExtractDetails env (requests_extract_company_profiles wenv base maxPages) with
  | .error e => .error e
  | .ok res =>
    .ok [("company_profiles",
          .vStrList (requests_extract_company_profiles wenv base maxPages)),
         ("details", .vRDetails res.1),
         ("emails", .vEmails res.2)]

/-- The literal dict a selenium worker builds for one profile's details
(line 125 of the selenium file), as key/value pairs. -/
def selDetailsDict (d : SelDetails) : List (String × Option String) :=
  [("name", d.name), ("address", d.address), ("country", d.country),
   ("website", d.website), ("email_source", some d.email_source)]

/-- The literal dict the requests loop builds for one profile's details
(line 85 of the requests file), as key/value pairs. -/
def rDetailsDict (d : RDetails) : List (String × Option String) :=
  [("name", d.name), ("address", d.address), ("country", d.country),
   ("website", d.website)]

/-- Dict lookup over the detail dicts, `none` modelling a `KeyError`. -/
def pyLookupStr (k : String) (d : List (String × Option String)) :
    Option (Option String) :=
  (d.find? (fun p => p.1 == k)).map Prod.snd

end Scraper

namespace PyStr

theorem data_append (a b : String) : (a ++ b).data = a.data ++ b.data := rfl

theorem string_eta (a : String) : (⟨a.data⟩ : String) = a := rfl

theorem takeWhile_append_stop (x : Char) (A B : List Char) (hA : ∀ c ∈ A, c ≠ x) :
    (A ++ x :: B).takeWhile (· != x) = A := by
  induction A with
  | nil => simp [List.takeWhile]
  | cons a as ih =>
    have ha : a ≠ x := hA a (by simp)
    simp only [List.cons_append, List.takeWhile]
    have : (a != x) = true := by simpa using ha
    rw [this]
    simp only [List.cons.injEq, true_and]
    exact ih (fun c hc => hA c (by simp [hc]))

theorem dropWhile_append_stop (x : Char) (A B : List Char) (hA : ∀ c ∈ A, c ≠ x) :
    (A ++ x :: B).dropWhile (· != x) = x :: B := by
  induction A with
  | nil => simp [List.dropWhile]
  | cons a as ih =>
    have ha : a ≠ x := hA a (by simp)
    simp only [List.cons_append, List.dropWhile]
    have : (a != x) = true := by simpa using ha
    rw [this]
    exact ih (fun c hc => hA c (by simp [hc]))

theorem count_append_sep (x : Char) (A B : List Char) (hA : x ∉ A) (hB : x ∉ B) :
    (A ++ x :: B).count x = 1 := by
  rw [List.count_append, List.count_cons_self]
  rw [List.count_eq_zero_of_not_mem hA, List.count_eq_zero_of_not_mem hB]

/-- Splitting `a ++ c ++ b` at the unique separator. -/
theorem pyUnpack2_append (c : Char) (a b : String)
    (ha : c ∉ a.data) (hb : c ∉ b.data) :
    pyUnpack2 c (a ++ ⟨[c]⟩ ++ b) = some (a, b) := by
  have hdata : (a ++ ⟨[c]⟩ ++ b).data = a.data ++ c :: b.data := by
    simp [data_append]
  have hne : ∀ d ∈ a.data, d ≠ c := fun d hd => fun he => ha (he ▸ hd)
  unfold pyUnpack2
  rw [hdata, count_append_sep c _ _ ha hb]
  simp only [if_pos rfl]
  rw [takeWhile_append_stop c _ _ hne, dropWhile_append_stop c _ _ hne]
  simp [string_eta]

/-- Splitting `a ++ c ++ b` at the first separator. -/
theorem pySplitFirst_append (c : Char) (a b : String) (ha : c ∉ a.data) :
    pySplitFirst c (a ++ ⟨[c]⟩ ++ b) = some (a, b) := by
  have hdata : (a ++ ⟨[c]⟩ ++ b).data = a.data ++ c :: b.data := by
    simp [data_append]
  have hne : ∀ d ∈ a.data, d ≠ c := fun d hd => fun he => ha (he ▸ hd)
  unfold pySplitFirst
  rw [hdata]
  have hmem : (a.data ++ c :: b.data).contains c = true :=
    List.elem_eq_true_of_mem (by simp)
  rw [hmem]
  simp only [if_pos rfl]
  rw [takeWhile_append_stop c _ _ hne, dropWhile_append_stop c _ _ hne]
  simp [string_eta]

end PyStr

section ClaimC6

open PyStr EmailExtractor

/-- C6: in a validated two-address set sharing one domain where one local
part is the other with a purely numeric prefix prepended, the
de-duplication removes exactly the numerically prefixed longer form and
keeps the shorter one, whichever way the set is ordered; and, in any set
containing both, the longer form is removed. -/
theorem c6_dedup_removes_numeric_prefixed (p l d : String)
    (hpne : p.data ≠ []) (hpdig : p.data.all Char.isDigit = true)
    (hpa : '@' ∉ p.data) (hla : '@' ∉ l.data) :
    deduplicate_parsing_errors [p ++ l ++ "@" ++ d, l ++ "@" ++ d] = [l ++ "@" ++ d] ∧
    deduplicate_parsing_errors [l ++ "@" ++ d, p ++ l ++ "@" ++ d] = [l ++ "@" ++ d] ∧
    (∀ S : List String, (l ++ "@" ++ d) ∈ S →
      removedByPair S (p ++ l ++ "@" ++ d) = true) := by
  have hat : ("@" : String) = (⟨['@']⟩ : String) := rfl
  have hpla : '@' ∉ (p ++ l).data := by
    rw [data_append]
    simp only [List.mem_append]
    rintro (h | h)
    · exact hpa h
    · exact hla h
  have hsplitL : pySplitFirst '@' (l ++ "@" ++ d) = some (l, d) := by
    rw [hat]; exact pySplitFirst_append '@' l d hla
  have hsplitPL : pySplitFirst '@' (p ++ l ++ "@" ++ d) = some (p ++ l, d) := by
    rw [hat]; exact pySplitFirst_append '@' (p ++ l) d hpla
  have hplen : 0 < p.data.length := List.length_pos.mpr hpne
  have hnePL : (p ++ l ++ "@" ++ d) ≠ (l ++ "@" ++ d) := by
    intro he
    have hlen : (p ++ l ++ "@" ++ d).data.length = (l ++ "@" ++ d).data.length := by
      rw [he]
    simp only [data_append, List.length_append] at hlen
    omega
  -- the longer, numerically prefixed address is flagged whenever the
  -- shorter one is in the set
  have hremPL : ∀ S : List String, (l ++ "@" ++ d) ∈ S →
      removedByPair S (p ++ l ++ "@" ++ d) = true := by
    intro S hmem
    unfold removedByPair
    rw [hsplitPL, List.any_eq_true]
    refine ⟨l ++ "@" ++ d, hmem, ?_⟩
    simp only [hsplitL]
    have h1 : ((p ++ l ++ "@" ++ d) != (l ++ "@" ++ d)) = true := by
      simpa using hnePL
    have h2 : (d == d) = true := by simp
    have h3 : decide (l.data.length < (p ++ l).data.length) = true := by
      rw [decide_eq_true_eq, data_append, List.length_append]
      omega
    have h4 : pyEndsWith (p ++ l).data l.data = true := by
      unfold pyEndsWith
      rw [data_append, List.isSuffixOf_iff_suffix]
      exact List.suffix_append p.data l.data
    have h5 : pyIsDigit ((p ++ l).data.take ((p ++ l).data.length - l.data.length)) = true := by
      rw [data_append, List.length_append, Nat.add_sub_cancel, List.take_left]
      unfold pyIsDigit
      have : p.data.isEmpty = false := by
        cases hp : p.data with
        | nil => exact absurd hp hpne
        | cons x xs => rfl
      rw [this, hpdig]
      rfl
    rw [h1, h2, h3, h4, h5]
    rfl
  -- the shorter address is never flagged by a set of these two
  have hremL : ∀ S : List String, (∀ e ∈ S, e = (p ++ l ++ "@" ++ d) ∨ e = (l ++ "@" ++ d)) →
      removedByPair S (l ++ "@" ++ d) = false := by
    intro S hS
    unfold removedByPair
    rw [hsplitL, List.any_eq_false]
    intro e he
    rcases hS e he with rfl | rfl
    · simp only [hsplitPL]
      have hd : decide ((p ++ l).data.length < l.data.length) = false := by
        rw [decide_eq_false_iff_not, data_append, List.length_append]
        omega
      rw [hd]
      simp
    · simp
  refine ⟨?_, ?_, hremPL⟩
  · have h1 := hremPL [p ++ l ++ "@" ++ d, l ++ "@" ++ d] (by simp)
    have h2 := hremL [p ++ l ++ "@" ++ d, l ++ "@" ++ d] (by
      intro e he
      simpa using he)
    unfold deduplicate_parsing_errors
    simp [List.filter, h1, h2]
  · have h1 := hremPL [l ++ "@" ++ d, p ++ l ++ "@" ++ d] (by simp)
    have h2 := hremL [l ++ "@" ++ d, p ++ l ++ "@" ++ d] (by
      intro e he
      rcases List.mem_cons.mp he with h | h
      · exact Or.inr h
      · simpa using Or.inl (List.mem_singleton.mp h))
    unfold deduplicate_parsing_errors
    simp [List.filter, h1, h2]

/-- Witness for C6 at the spec's example set, in both set orders. -/
theorem c6_dedup_witness :
    deduplicate_parsing_errors ["123sales@acme.com", "sales@acme.com"] = ["sales@acme.com"] ∧
    deduplicate_parsing_errors ["sales@acme.com", "123sales@acme.com"] = ["sales@acme.com"] := by
  have h := c6_dedup_removes_numeric_prefixed "123" "sales" "acme.com"
    (by decide) (by decide) (by decide) (by decide)
  exact ⟨h.1, h.2.1⟩

end ClaimC6

section ClaimC4

open PyStr PyFloat EmailExtractor

/-- C4: for an address `local@domain`, the business-relevance score is the
spec's formula — 0.5 base, plus 0.3 for a recognized business-style opener
(at most once), minus 0.2 for a webmail domain and plus 0.2 otherwise,
minus 0.4 for a placeholder token in the local part, plus 0.1 for a local
part of length at most 10 and minus 0.1 beyond 20, clamped to [0, 1]. -/
theorem c4_score_formula (lp dm : String)
    (hlp : '@' ∉ lp.data) (hdm : '@' ∉ dm.data) :
    score_email_business_relevance (lp ++ "@" ++ dm) =
      some (pyMax 0 (pyMin 1 ((1 : ℚ)/2
        + (if business_prefixes.any (fun q => pyStartsWith (pyLower lp).data q.data)
           then 3/10 else 0)
        + (if pyLower dm ∈ business_domains then -(1/5) else 1/5)
        + (if placeholderWords.any (fun w => containsSub w.data (pyLower lp).data)
           then -(2/5) else 0)
        + (if (pyLower lp).data.length ≤ 10 then 1/10
           else if 20 < (pyLower lp).data.length then -(1/10) else 0)))) := by
  have hne : (lp ++ "@" ++ dm) ≠ "" := by
    intro he
    have hm : '@' ∈ (lp ++ "@" ++ dm).data := by simp [data_append]
    rw [he] at hm
    simp at hm
  have hat : ("@" : String) = (⟨['@']⟩ : String) := rfl
  have hsplit : pyUnpack2 '@' (lp ++ "@" ++ dm) = some (lp, dm) := by
    rw [hat]; exact pyUnpack2_append '@' lp dm hlp hdm
  unfold score_email_business_relevance scoreT
  rw [if_neg hne, hsplit]
  dsimp only
  split_ifs <;>
    first
    | (exfalso; tauto)
    | norm_num [intMax, intMin, pyMax, pyMin]

/-- Witness for C4: `info@acme.com` scores exactly 1.0. -/
theorem c4_score_witness : score_email_business_relevance "info@acme.com" = some 1 := by
  have h := c4_score_formula "info" "acme.com" (by decide) (by decide)
  rw [(by decide : ("info@acme.com" : String) = "info" ++ "@" ++ "acme.com"), h]
  have c1 : (business_prefixes.any fun q => pyStartsWith (pyLower "info").data q.data)
      = true := by decide
  have c2 : pyLower "acme.com" ∉ business_domains := by decide
  have c3 : (placeholderWords.any fun w => containsSub w.data (pyLower "info").data)
      = false := by decide
  have c4 : (pyLower "info").data.length ≤ 10 := by decide
  rw [if_pos c1, if_neg c2, if_neg (by simp [c3]), if_pos c4]
  norm_num [pyMax, pyMin]

end ClaimC4

section ClaimC10

open PyStr EmailExtractor

theorem splitChar_no_sep (c : Char) (B : List Char) (hB : c ∉ B) :
    splitChar c B = [B] := by
  induction B with
  | nil => rfl
  | cons b bs ih =>
    have hb : b ≠ c := fun he => hB (he ▸ List.mem_cons_self b bs)
    have hbs : c ∉ bs := fun h => hB (List.mem_cons_of_mem b h)
    unfold splitChar
    rw [ih hbs]
    simp [hb]

theorem splitChar_sep (c : Char) (A B : List Char) (hA : c ∉ A) (hB : c ∉ B) :
    splitChar c (A ++ c :: B) = [A, B] := by
  induction A with
  | nil =>
    simp only [List.nil_append]
    unfold splitChar
    rw [splitChar_no_sep c B hB]
    simp
  | cons a as ih =>
    have ha : a ≠ c := fun he => hA (he ▸ List.mem_cons_self a as)
    have has : c ∉ as := fun h => hA (List.mem_cons_of_mem a h)
    simp only [List.cons_append]
    unfold splitChar
    rw [ih has]
    simp [ha]

theorem domainOf_append (lp X : String) (h1 : '@' ∉ lp.data) (h2 : '@' ∉ X.data) :
    domainOf (lp ++ "@" ++ X) = pyLower X := by
  unfold domainOf
  have hdata : (lp ++ "@" ++ X).data = lp.data ++ '@' :: X.data := by
    simp [data_append]
  rw [hdata, splitChar_sep '@' _ _ h1 h2]
  simp [string_eta]

/-- No entry of the exclusion list is a strict dot-suffix of another entry
(checked entry against entry). -/
def checkNoNested : Bool :=
  excluded_domains.all (fun e =>
    excluded_domains.all (fun f => !(('.' :: f.data).isSuffixOf e.data)))

theorem checkNoNested_true : checkNoNested = true := by decide

/-- C10: domain exclusion is an exact string match — the domain of an
address sitting on a strict subdomain of an excluded entry is itself not
on the exclusion list, so `is_valid_email` does not reject it on exclusion
grounds; in particular `someone@mail.doubleclick.net` is valid and comes
out of the engine even though `doubleclick.net` is excluded. -/
theorem c10_exclusion_exact_match (lp sub d : String)
    (hd : d ∈ excluded_domains)
    (hlow : pyLower (sub ++ "." ++ d) = sub ++ "." ++ d)
    (hla : '@' ∉ lp.data) (hsa : '@' ∉ sub.data) (hda : '@' ∉ d.data) :
    domainOf (lp ++ "@" ++ (sub ++ "." ++ d)) ∉ excluded_domains ∧
    is_valid_email "someone@mail.doubleclick.net" = true ∧
    extract_and_filter_emails id (.raw "write someone@mail.doubleclick.net today")
      PyFloat.minScoreDefault = some ["someone@mail.doubleclick.net"] := by
  refine ⟨?_, by decide, by decide⟩
  have hXa : '@' ∉ (sub ++ "." ++ d).data := by
    simp only [data_append]
    intro hm
    rcases List.mem_append.mp hm with hm1 | hm2
    · rcases List.mem_append.mp hm1 with hm3 | hm4
      · exact hsa hm3
      · simp at hm4
    · exact hda hm2
  rw [domainOf_append lp (sub ++ "." ++ d) hla hXa, hlow]
  intro hmem
  have hsuf : (('.' :: d.data).isSuffixOf (sub ++ "." ++ d).data) = true := by
    have hdata : (sub ++ "." ++ d).data = sub.data ++ '.' :: d.data := by
      simp [data_append]
    rw [hdata, List.isSuffixOf_iff_suffix]
    exact List.suffix_append sub.data ('.' :: d.data)
  have hall := checkNoNested_true
  unfold checkNoNested at hall
  rw [List.all_eq_true] at hall
  have h1 := hall _ hmem
  rw [List.all_eq_true] at h1
  have h2 := h1 _ hd
  rw [hsuf] at h2
  simp at h2

/-- Witness for C10 at `someone@mail.doubleclick.net`. -/
theorem c10_exclusion_witness :
    domainOf ("someone" ++ "@" ++ ("mail" ++ "." ++ "doubleclick.net")) ∉
      EmailExtractor.excluded_domains ∧
    is_valid_email "someone@mail.doubleclick.net" = true ∧
    extract_and_filter_emails id (.raw "write someone@mail.doubleclick.net today")
      PyFloat.minScoreDefault = some ["someone@mail.doubleclick.net"] :=
  c10_exclusion_exact_match "someone" "mail" "doubleclick.net"
    (by decide) (by decide) (by decide) (by decide) (by decide)

end ClaimC10

section ClaimC1

open Scraper

/-- The three-page listing of the C1 scenario: pages 1 and 2 expose a
next-page control, page 3 yields its links but no control, and the
behaviour of any later page is arbitrary. -/
def c1Env (p4 : Except Unit PageRes) : WalkEnv :=
  { page := fun n =>
      if n = 1 then .ok ⟨[some "http://a/1"], true⟩
      else if n = 2 then .ok ⟨[some "http://a/2"], true⟩
      else if n = 3 then .ok ⟨[some "http://a/3"], false⟩
      else p4
    urljoin := fun b r => b ++ r }

/-- The same three pages when every page advertises a next control and the
page limit is 3, the loop's other termination path. -/
def c1EnvExhaust : WalkEnv :=
  { page := fun n =>
      if n = 1 then .ok ⟨[some "http://a/1"], true⟩
      else if n = 2 then .ok ⟨[some "http://a/2"], true⟩
      else .ok ⟨[some "http://a/3"], true⟩
    urljoin := fun b r => b ++ r }

/-- C1: on a sequence where pages 1-3 are fetched and page 3 exposes no
next-page control, the selenium walk returns the union of the links of
pages 1-3 and `pagesWalked = 2` — not the 3 the spec fixes — and never
consults page 4 (the result is identical for every behaviour of page 4);
yet the max-pages-exhausted path of the same loop reports 3 for the same
three successfully extracted pages. -/
theorem c1_pages_walked_off_by_one :
    (∀ p4 : Except Unit PageRes,
      extract_company_profiles (c1Env p4) "http://b" 10 =
        (["http://a/1", "http://a/2", "http://a/3"], 2)) ∧
    extract_company_profiles c1EnvExhaust "http://b" 3 =
      (["http://a/1", "http://a/2", "http://a/3"], 3) := by
  exact ⟨fun _ => rfl, rfl⟩

end ClaimC1

section ClaimC3

open Scraper

/-- Shared: the worker-as-called never carries an error out. -/
theorem workerTotal (env : SelEnv) (url : String) :
    ∃ r, processSingleProfileExc env url = Except.ok r := by
  unfold processSingleProfileExc
  cases processBody env url with
  | ok r => exact ⟨r, rfl⟩
  | error p => exact ⟨p.2, rfl⟩

/-- Shared: a driver-setup failure degrades to the all-absent record. -/
theorem workerSetupError (env : SelEnv) (url : String) (e : PyErr)
    (hs : env.setup = .error e) :
    processSingleProfile env url = (emptyDetails, []) := by
  unfold processSingleProfile processSingleProfileExc processBody
  rw [hs]

/-- Shared: a profile-fetch failure degrades to the all-absent record. -/
theorem workerFetchError (env : SelEnv) (url : String) (e : PyErr)
    (hs : env.setup = .ok ()) (hg : env.get url = .error e) :
    processSingleProfile env url = (emptyDetails, []) := by
  unfold processSingleProfile processSingleProfileExc processBody
  rw [hs, hg]

/-- C3: `_process_single_profile` never lets an exception reach its
caller — the outer handler catches every error kind the body can raise —
and a failure to set up the driver or to fetch the profile page yields the
all-absent record with an empty e-mail list. -/
theorem c3_worker_never_raises :
    (∀ (env : SelEnv) (url : String),
      ∃ r, processSingleProfileExc env url = Except.ok r) ∧
    (∀ (env : SelEnv) (url : String) (e : PyErr),
      env.setup = .error e →
      processSingleProfile env url = (emptyDetails, [])) ∧
    (∀ (env : SelEnv) (url : String) (e : PyErr),
      env.setup = .ok () → env.get url = .error e →
      processSingleProfile env url = (emptyDetails, [])) :=
  ⟨workerTotal, fun env url e hs => workerSetupError env url e hs,
   fun env url e hs hg => workerFetchError env url e hs hg⟩

/-- Witness for C3: a concrete task whose profile fetch fails returns the
all-absent record and raises nothing. -/
def c3FailEnv : SelEnv :=
  { setup := .ok ()
    get := fun _ => .error (.webdriver true)
    bodyWait := fun _ => .ok ()
    pageAt := fun _ => ⟨⟨[], "", []⟩, fun _ => .noSuch⟩
    cookieWait := .error .timeout
    cookieClick := .ok ()
    nameEl := .error .timeout
    addressEl := .error .timeout
    countryEl := .error .timeout
    websiteEl := .error .timeout
    urljoin := fun a b => a ++ b
    hashOrder := id }

theorem c3_worker_witness :
    processSingleProfile c3FailEnv "http://p/1" = (emptyDetails, []) :=
  c3_worker_never_raises.2.2 c3FailEnv "http://p/1" (.webdriver true) rfl rfl

end ClaimC3

section ClaimC2

open Scraper

theorem mapWithIndex_length (f : Nat → String → WSt) (i : Nat) (l : List String) :
    (mapWithIndex f i l).length = l.length := by
  induction l generalizing i with
  | nil => rfl
  | cons u us ih => simp [mapWithIndex, ih]

theorem mapWithIndex_getElem (f : Nat → String → WSt) (i k : Nat) (l : List String) :
    (mapWithIndex f i l)[k]? = (l[k]?).map (f (i + k)) := by
  induction l generalizing i k with
  | nil => simp [mapWithIndex]
  | cons u us ih =>
    cases k with
    | zero => simp [mapWithIndex]
    | succ k2 =>
      have : i + (k2 + 1) = (i + 1) + k2 := by omega
      simp [mapWithIndex, ih (i + 1) k2, this]

/-- Shared: the per-index characterisation of the orchestrator's outputs. -/
theorem parallel_getElem (envs : Nat → SelEnv) (urls : List String) (k : Nat) :
    (extract_details_and_emails_parallel envs urls).1[k]? =
      (urls[k]?).map (fun u => (processSingleProfile (envs k) u).1) ∧
    (extract_details_and_emails_parallel envs urls).2[k]? =
      (urls[k]?).map (fun u => (processSingleProfile (envs k) u).2) := by
  unfold extract_details_and_emails_parallel
  constructor <;>
  · simp only [List.getElem?_map, mapWithIndex_getElem, Nat.zero_add, Option.map_map]
    rfl

/-- C2 (amended): the two output lists always have the input's length with
index `i` produced from URL `i` by its own worker; a worker whose profile
fetch fails leaves the all-absent record and empty e-mail list at its
index; and changing the world of task `k` cannot affect any other index. -/
theorem c2_orchestrator_index_correspondence :
    (∀ (envs : Nat → SelEnv) (urls : List String),
      (extract_details_and_emails_parallel envs urls).1.length = urls.length ∧
      (extract_details_and_emails_parallel envs urls).2.length = urls.length) ∧
    (∀ (envs : Nat → SelEnv) (urls : List String) (k : Nat),
      (extract_details_and_emails_parallel envs urls).1[k]? =
        (urls[k]?).map (fun u => (processSingleProfile (envs k) u).1) ∧
      (extract_details_and_emails_parallel envs urls).2[k]? =
        (urls[k]?).map (fun u => (processSingleProfile (envs k) u).2)) ∧
    (∀ (envs : Nat → SelEnv) (urls : List String) (k : Nat) (u : String) (e : PyErr),
      urls[k]? = some u → (envs k).setup = .ok () → (envs k).get u = .error e →
      (extract_details_and_emails_parallel envs urls).1[k]? = some emptyDetails ∧
      (extract_details_and_emails_parallel envs urls).2[k]? = some []) ∧
    (∀ (envs envs' : Nat → SelEnv) (urls : List String) (k : Nat),
      (∀ j, j ≠ k → envs' j = envs j) →
      ∀ j, j ≠ k →
        (extract_details_and_emails_parallel envs' urls).1[j]? =
          (extract_details_and_emails_parallel envs urls).1[j]? ∧
        (extract_details_and_emails_parallel envs' urls).2[j]? =
          (extract_details_and_emails_parallel envs urls).2[j]?) := by
  refine ⟨?_, parallel_getElem, ?_, ?_⟩
  · intro envs urls
    unfold extract_details_and_emails_parallel
    constructor <;> simp [mapWithIndex_length]
  · intro envs urls k u e hu hs hg
    have h := parallel_getElem envs urls k
    rw [h.1, h.2, hu]
    simp only [Option.map_some']
    rw [workerFetchError (envs k) u e hs hg]
    exact ⟨rfl, rfl⟩
  · intro envs envs' urls k hagree j hj
    have h1 := parallel_getElem envs urls j
    have h2 := parallel_getElem envs' urls j
    rw [h1.1, h1.2, h2.1, h2.2, hagree j hj]
    exact ⟨rfl, rfl⟩

/-- A task world that fails mid-way: the name element resolves, then the
address wait dies with a non-timeout `WebDriverException`, which escapes
the field handler and hits the worker's outer handler. -/
def c2FailEnv : SelEnv :=
  { setup := .ok ()
    get := fun _ => .ok ()
    bodyWait := fun _ => .ok ()
    pageAt := fun _ => ⟨⟨[], "", []⟩, fun _ => .noSuch⟩
    cookieWait := .error .timeout
    cookieClick := .ok ()
    nameEl := .ok "Acme GmbH"
    addressEl := .error (.webdriver false)
    countryEl := .ok "de"
    websiteEl := .error .timeout
    urljoin := fun a b => a ++ b
    hashOrder := id }

/-- Counterexample to C2 as stated: the worker of index 0 fails internally
(its body ends in an error), yet the record at index 0 is not all-`None` —
the name extracted before the failure is kept. -/
theorem c2_counterexample :
    processBody c2FailEnv "http://p/1" =
      .error (.webdriver false, (⟨some "Acme GmbH", none, none, none, "not_found"⟩, [])) ∧
    (extract_details_and_emails_parallel (fun _ => c2FailEnv) ["http://p/1"]).1 =
      [⟨some "Acme GmbH", none, none, none, "not_found"⟩] ∧
    (extract_details_and_emails_parallel (fun _ => c2FailEnv) ["http://p/1"]).2 = [[]] :=
  ⟨rfl, rfl, rfl⟩

/-- Witness for C2 (amended) at a concrete two-URL input whose first task
fails at the profile fetch: index 0 degrades, index 1 is its own worker's
result. -/
theorem c2_orchestrator_witness :
    (extract_details_and_emails_parallel (fun _ => c3FailEnv)
        ["http://p/1", "http://p/2"]).1[0]? = some emptyDetails ∧
    (extract_details_and_emails_parallel (fun _ => c3FailEnv)
        ["http://p/1", "http://p/2"]).2[0]? = some [] :=
  c2_orchestrator_index_correspondence.2.2.1 (fun _ => c3FailEnv)
    ["http://p/1", "http://p/2"] 0 "http://p/1" (.webdriver true) rfl rfl rfl

end ClaimC2

section ClaimC8

open EmailExtractor

theorem mem_insertDesc {x z : String × Int} {l : List (String × Int)} :
    z ∈ insertDesc x l ↔ z = x ∨ z ∈ l := by
  induction l with
  | nil => simp [insertDesc]
  | cons y ys ih =>
    unfold insertDesc
    by_cases hc : y.2 < x.2
    · simp [hc]
    · simp only [if_neg hc, List.mem_cons, ih]
      tauto

theorem pairwise_insertDesc {x : String × Int} {l : List (String × Int)}
    (h : l.Pairwise (fun a b => b.2 ≤ a.2)) :
    (insertDesc x l).Pairwise (fun a b => b.2 ≤ a.2) := by
  induction l with
  | nil => simp [insertDesc]
  | cons y ys ih =>
    rcases List.pairwise_cons.mp h with ⟨hy, hys⟩
    unfold insertDesc
    by_cases hc : y.2 < x.2
    · rw [if_pos hc]
      refine List.pairwise_cons.mpr ⟨?_, h⟩
      intro z hz
      rcases List.mem_cons.mp hz with rfl | hz2
      · omega
      · have := hy z hz2
        omega
    · rw [if_neg hc]
      refine List.pairwise_cons.mpr ⟨?_, ih hys⟩
      intro z hz
      rcases mem_insertDesc.mp hz with rfl | hz2
      · omega
      · exact hy z hz2

theorem pairwise_sortDesc_aux (l acc : List (String × Int))
    (h : acc.Pairwise (fun a b => b.2 ≤ a.2)) :
    (l.foldl (fun a x => insertDesc x a) acc).Pairwise (fun a b => b.2 ≤ a.2) := by
  induction l generalizing acc with
  | nil => exact h
  | cons x xs ih => exact ih (insertDesc x acc) (pairwise_insertDesc h)

theorem pairwise_sortDesc (l : List (String × Int)) :
    (sortDesc l).Pairwise (fun a b => b.2 ≤ a.2) :=
  pairwise_sortDesc_aux l [] (by simp)

theorem mem_sortDesc_aux {z : String × Int} (l acc : List (String × Int))
    (h : z ∈ l.foldl (fun a x => insertDesc x a) acc) : z ∈ acc ∨ z ∈ l := by
  induction l generalizing acc with
  | nil => exact Or.inl h
  | cons x xs ih =>
    rcases ih (insertDesc x acc) h with h2 | h2
    · rcases mem_insertDesc.mp h2 with rfl | h3
      · simp
      · exact Or.inl h3
    · simp [h2]

theorem mem_sortDesc {z : String × Int} {l : List (String × Int)}
    (h : z ∈ sortDesc l) : z ∈ l := by
  rcases mem_sortDesc_aux l [] h with h2 | h2
  · simp at h2
  · exact h2

theorem scored_spec (l : List String) (scored : List (String × Int))
    (h : l.mapM (fun e => (scoreT e).map (fun t => (e, t))) = some scored) :
    ∀ q ∈ scored, scoreT q.1 = some q.2 := by
  induction l generalizing scored with
  | nil =>
    simp only [List.mapM_nil, pure, Option.some.injEq] at h
    subst h
    intro q hq
    simp at hq
  | cons e es ih =>
    rw [List.mapM_cons] at h
    cases hs : scoreT e with
    | none => rw [hs] at h; simp at h
    | some t =>
      rw [hs] at h
      cases hrest : es.mapM (fun e => (scoreT e).map (fun t => (e, t))) with
      | none => rw [hrest] at h; simp at h
      | some rest =>
        rw [hrest] at h
        simp only [Option.map_some', Option.bind_some, Option.bind_eq_bind,
          Option.some_bind, pure, Option.some.injEq] at h
        subst h
        intro q hq
        rcases List.mem_cons.mp hq with rfl | hq2
        · exact hs
        · exact ih rest hrest q hq2

/-- Shared: any list the filter stage returns is sorted by non-increasing
business-relevance score. -/
theorem filter_business_sorted (σ : List String → List String)
    (S : List String) (m : ℚ) (l : List String)
    (h : filter_business_emails σ S m = some l) :
    l.Pairwise (fun a b => (scoreT b).getD 0 ≤ (scoreT a).getD 0) := by
  unfold filter_business_emails at h
  cases hm : (σ S).mapM (fun e => (scoreT e).map (fun t => (e, t))) with
  | none => rw [hm] at h; cases h
  | some scored =>
    rw [hm] at h
    injection h with h
    subst h
    rw [List.pairwise_map]
    have hsorted := pairwise_sortDesc (scored.filter (fun q => PyFloat.leTenths m q.2))
    refine hsorted.imp_of_mem ?_
    intro a b ha hb hr
    have ha2 : scoreT a.1 = some a.2 :=
      scored_spec (σ S) scored hm a (List.mem_of_mem_filter (mem_sortDesc ha))
    have hb2 : scoreT b.1 = some b.2 :=
      scored_spec (σ S) scored hm b (List.mem_of_mem_filter (mem_sortDesc hb))
    rw [ha2, hb2]
    simpa using hr

/-- C8: with the process's set-iteration order fixed (it is fixed for a
whole interpreter run by the hash seed), two calls of the engine on the
same markup and threshold return the identical ordered list — equal-score
ties included — and every returned list is sorted by non-increasing
business-relevance score. -/
theorem c8_engine_deterministic :
    (∀ (hashOrder : List String → List String) (c : Content) (m : ℚ),
      extract_and_filter_emails hashOrder c m =
        extract_and_filter_emails hashOrder c m) ∧
    (∀ (hashOrder : List String → List String) (c : Content) (m : ℚ)
        (l : List String),
      extract_and_filter_emails hashOrder c m = some l →
      l.Pairwise (fun a b => (scoreT b).getD 0 ≤ (scoreT a).getD 0)) := by
  refine ⟨fun _ _ _ => rfl, ?_⟩
  intro σ c m l h
  cases c with
  | page d => exact filter_business_sorted σ _ m l h
  | raw t => exact filter_business_sorted σ _ m l h

end ClaimC8

section ClaimC7

open Scraper EmailExtractor

/-- The company website's main page of the C7 scenario: no addresses, but
a contact anchor. -/
def c7SiteDoc : Doc := ⟨[], "no addresses here", []⟩

/-- The contact page of the C7 scenario, holding an address. -/
def c7ContactDoc : Doc := ⟨[], "write sales@acme.com", []⟩

/-- A worker world where the profile page exposes no contact anchor at all
while the company website's main page does. -/
def c7Env : SelEnv :=
  { setup := .ok ()
    get := fun _ => .ok ()
    bodyWait := fun _ => .ok ()
    pageAt := fun u =>
      if u = "http://site" then
        ⟨c7SiteDoc, fun k =>
          if k = "contact" then .foundHref (some "http://site/contact") else .noSuch⟩
      else if u = "http://site/contact" then ⟨c7ContactDoc, fun _ => .noSuch⟩
      else ⟨⟨[], "", []⟩, fun _ => .noSuch⟩
    cookieWait := .error .timeout
    cookieClick := .ok ()
    nameEl := .error .timeout
    addressEl := .error .timeout
    countryEl := .error .timeout
    websiteEl := .ok (some "http://site")
    urljoin := fun a b => a ++ b
    hashOrder := id }

/-- Counterexample to C7 as stated: in `c7Env` the profile page's markup
(searched with the worker's own keyword loop) yields no contact link, yet
the rendered-browser worker ends with `email_source = contact_page` and
the e-mails of the company site's contact page — it searched the company
website's markup, not the profile page's. -/
theorem c7_counterexample :
    contactLoopSel (c7Env.pageAt "http://p/1") c7Env.urljoin "http://site"
      contactKeywordsSel = ContactOut.fell ∧
    (processSingleProfile c7Env "http://p/1").1.email_source = "contact_page" ∧
    (processSingleProfile c7Env "http://p/1").2 = ["sales@acme.com"] :=
  ⟨rfl, rfl, rfl⟩

/-- C7 (amended): when the company-website main page yields no e-mails,
the rendered-browser worker searches the markup of the page the driver is
on — the company website's main page — for a contact-keyword anchor; no
anchor there means no contact fetch whatever the profile page holds, and a
found anchor is fetched at its URL resolved against the website URL with
`email_source = contact_page` exactly when extraction finds e-mails there.
The static-HTTP worker instead searches the profile page's soup (the only
soup it builds) and resolves the href against the website URL; its record
carries no e-mail source at all. -/
theorem c7_contact_fallback_behaviour :
    (∀ (env : SelEnv) (purl wurl : String),
      env.setup = .ok () → (∀ u, env.get u = .ok ()) →
      (∀ u, env.bodyWait u = .ok ()) →
      env.cookieWait = .error .timeout →
      env.nameEl = .error .timeout → env.addressEl = .error .timeout →
      env.countryEl = .error .timeout →
      env.websiteEl = .ok (some wurl) → wurl ≠ "" →
      extract_and_filter_emails env.hashOrder (.page (env.pageAt wurl).doc)
        PyFloat.minScoreDefault = some [] →
      contactLoopSel (env.pageAt wurl) env.urljoin wurl contactKeywordsSel =
        ContactOut.fell →
      processSingleProfile env purl = ({emptyDetails with website := some wurl}, [])) ∧
    (∀ (env : SelEnv) (purl wurl r : String) (L : List String),
      env.setup = .ok () → (∀ u, env.get u = .ok ()) →
      (∀ u, env.bodyWait u = .ok ()) →
      env.cookieWait = .error .timeout →
      env.nameEl = .error .timeout → env.addressEl = .error .timeout →
      env.countryEl = .error .timeout →
      env.websiteEl = .ok (some wurl) → wurl ≠ "" →
      extract_and_filter_emails env.hashOrder (.page (env.pageAt wurl).doc)
        PyFloat.minScoreDefault = some [] →
      contactLoopSel (env.pageAt wurl) env.urljoin wurl contactKeywordsSel =
        ContactOut.broke r →
      r ≠ "" →
      extract_and_filter_emails env.hashOrder (.page (env.pageAt r).doc)
        PyFloat.minScoreDefault = some L →
      processSingleProfile env purl =
        (if L.isEmpty then ({emptyDetails with website := some wurl}, L)
         else ((⟨none, none, none, some wurl, "contact_page"⟩ : SelDetails), L))) ∧
    (∀ (env : ReqEnv) (purl wurl href : String) (page wpage cpage : RPage)
        (L : List String),
      env.fetch purl = .ok page →
      page.nameText = none → page.addressText = none → page.countryText = none →
      page.websiteEl = some (some wurl) → wurl ≠ "" →
      env.fetch wurl = .ok wpage →
      extract_and_filter_emails env.hashOrder (.page wpage.doc)
        PyFloat.minScoreDefault = some [] →
      contactLoopReq page contactKeywordsReq = some href →
      env.fetch (env.urljoin wurl href) = .ok cpage →
      extract_and_filter_emails env.hashOrder (.page cpage.doc)
        PyFloat.minScoreDefault = some L →
      requestsProcessProfile env purl = .ok (⟨none, none, none, some wurl⟩, L)) := by
  refine ⟨?_, ?_, ?_⟩
  · intro env purl wurl hs hget hbody hcw hn ha hc hw hwne hmain hfell
    unfold processSingleProfile processSingleProfileExc processBody websiteBlock
    simp only [hs, hget, hbody, hcw, hn, ha, hc, hw, hmain, hfell, if_neg hwne]
    rfl
  · intro env purl wurl r L hs hget hbody hcw hn ha hc hw hwne hmain hbroke hrne hcontact
    unfold processSingleProfile processSingleProfileExc processBody websiteBlock
    simp only [hs, hget, hbody, hcw, hn, ha, hc, hw, hmain, hbroke, hcontact,
      if_neg hwne, if_neg hrne, List.isEmpty_nil]
    rfl
  · intro env purl wurl href page wpage cpage L hf hn ha hc hw hwne hwf hmain hloop hcf hcx
    unfold requestsProcessProfile
    simp only [hf, hn, ha, hc, hw, hwf, hmain, hloop, hcf, hcx, if_neg hwne,
      Option.map_none']
    rfl

end ClaimC7

section ClaimC9

open Scraper

/-- C9: the two backends do not return the same aggregate shape — the
static-HTTP `scrape()` result never holds a `pages_scraped` key (whereas
the rendered-browser result always does, and `main.py` reads it
unconditionally), and a requests detail record has no `email_source` key
while every selenium detail record does. -/
theorem c9_result_shape_mismatch :
    (∀ (env : ReqEnv) (wenv : WalkEnv) (base : String) (mp : Nat)
        (d : List (String × PyVal)),
      requestsScrape env wenv base mp = .ok d →
      pyLookup "pages_scraped" d = none) ∧
    (∀ (wenv : WalkEnv) (envs : Nat → SelEnv) (base : String) (mp : Nat),
      pyLookup "pages_scraped" (seleniumScrape wenv envs base mp) =
        some (.vNat (extract_company_profiles wenv base mp).2)) ∧
    (∀ d : RDetails, pyLookupStr "email_source" (rDetailsDict d) = none) ∧
    (∀ d : SelDetails,
      pyLookupStr "email_source" (selDetailsDict d) = some (some d.email_source)) := by
  refine ⟨?_, fun _ _ _ _ => rfl, fun _ => rfl, fun _ => rfl⟩
  intro env wenv base mp d h
  unfold requestsScrape at h
  cases hr : requestsExtractDetails env (requests_extract_company_profiles wenv base mp) with
  | error e => rw [hr] at h; cases h
  | ok res =>
    rw [hr] at h
    injection h with h
    subst h
    rfl

end ClaimC9

section ClaimC5

open PyStr EmailExtractor

theorem replaceAllF_congr (pat rep : List Char) :
    ∀ (n : Nat) (s : List Char), s.length ≤ n →
      ∀ f g, s.length ≤ f → s.length ≤ g →
        replaceAllF pat rep f s = replaceAllF pat rep g s := by
  intro n
  induction n with
  | zero =>
    intro s hs f g _ _
    have hnil : s = [] := List.length_eq_zero.mp (Nat.le_zero.mp hs)
    subst hnil
    cases f <;> cases g <;> rfl
  | succ n ih =>
    intro s hs f g hf hg
    cases s with
    | nil => cases f <;> cases g <;> rfl
    | cons c cs =>
      cases f with
      | zero => simp at hf
      | succ f2 =>
        cases g with
        | zero => simp at hg
        | succ g2 =>
          simp only [List.length_cons] at hs hf hg
          unfold replaceAllF
          by_cases hp : pat ≠ [] ∧ pat.isPrefixOf (c :: cs)
          · rw [if_pos hp, if_pos hp]
            congr 1
            have hplen : 1 ≤ pat.length := by
              cases hpat : pat with
              | nil => exact absurd hpat hp.1
              | cons x xs => simp
            have hlen : ((c :: cs).drop pat.length).length = cs.length + 1 - pat.length := by
              simp [List.length_drop]
            apply ih
            · rw [hlen]; omega
            · rw [hlen]; omega
            · rw [hlen]; omega
          · rw [if_neg hp, if_neg hp]
            congr 1
            exact ih cs (by omega) f2 g2 (by omega) (by omega)

theorem replaceAll_nil (pat rep : List Char) : replaceAll pat rep [] = [] := rfl

theorem replaceAllF_cons_nomatch (pat rep : List Char) (c : Char) (s : List Char)
    (f : Nat) (h : ¬ pat.isPrefixOf (c :: s) = true) :
    replaceAllF pat rep (f + 1) (c :: s) = c :: replaceAllF pat rep f s := by
  have hstep : replaceAllF pat rep (f + 1) (c :: s)
      = if pat ≠ [] ∧ pat.isPrefixOf (c :: s) then
          rep ++ replaceAllF pat rep f ((c :: s).drop pat.length)
        else c :: replaceAllF pat rep f s := rfl
  rw [hstep, if_neg (fun hand => h hand.2)]

theorem replaceAll_cons_nomatch (pat rep : List Char) (c : Char) (s : List Char)
    (h : ¬ pat.isPrefixOf (c :: s) = true) :
    replaceAll pat rep (c :: s) = c :: replaceAll pat rep s := by
  show replaceAllF pat rep (s.length + 1) (c :: s) = c :: replaceAllF pat rep s.length s
  exact replaceAllF_cons_nomatch pat rep c s s.length h

theorem replaceAll_head (pat rep X : List Char) (hp : pat ≠ []) :
    replaceAll pat rep (pat ++ X) = rep ++ replaceAll pat rep X := by
  cases hpat : pat with
  | nil => exact absurd hpat hp
  | cons q qs =>
    show replaceAllF (q :: qs) rep ((qs ++ X).length + 1) (q :: (qs ++ X))
        = rep ++ replaceAllF (q :: qs) rep X.length X
    have hstep : replaceAllF (q :: qs) rep ((qs ++ X).length + 1) (q :: (qs ++ X))
        = if (q :: qs) ≠ [] ∧ (q :: qs).isPrefixOf (q :: (qs ++ X)) then
            rep ++ replaceAllF (q :: qs) rep (qs ++ X).length
              ((q :: (qs ++ X)).drop (q :: qs).length)
          else q :: replaceAllF (q :: qs) rep (qs ++ X).length (qs ++ X) := rfl
    have hpre : (q :: qs).isPrefixOf (q :: (qs ++ X)) = true := by
      rw [List.isPrefixOf_iff_prefix]
      exact List.prefix_append (q :: qs) X
    have hdrop : (q :: (qs ++ X)).drop (q :: qs).length = X := by
      have h2 := List.drop_left (q :: qs) X
      simpa using h2
    rw [hstep, if_pos ⟨List.cons_ne_nil q qs, hpre⟩, hdrop]
    congr 1
    exact replaceAllF_congr (q :: qs) rep X.length X le_rfl (qs ++ X).length X.length
      (by rw [List.length_append]; omega) le_rfl

theorem replaceAll_skip (pat rep : List Char) (h0 : Char) (A B : List Char)
    (hp : pat.head? = some h0) (hA : h0 ∉ A) :
    replaceAll pat rep (A ++ B) = A ++ replaceAll pat rep B := by
  induction A with
  | nil => rfl
  | cons a as ih =>
    have ha : a ≠ h0 := fun he => hA (he ▸ List.mem_cons_self a as)
    have has : h0 ∉ as := fun hm => hA (List.mem_cons_of_mem a hm)
    have hnm : ¬ pat.isPrefixOf (a :: (as ++ B)) = true := by
      intro hpre
      cases hpat : pat with
      | nil => rw [hpat] at hp; simp at hp
      | cons q qs =>
        rw [hpat] at hp hpre
        have hq : q = h0 := by simpa using hp
        rw [List.isPrefixOf_iff_prefix] at hpre
        have hqa : q = a := (List.cons_prefix_cons.mp hpre).1
        exact ha (hqa ▸ hq)
    rw [List.cons_append, replaceAll_cons_nomatch pat rep a (as ++ B) hnm, ih has]
    rfl

theorem replaceAll_nooccur (pat rep : List Char) (h0 : Char) (X : List Char)
    (hp : pat.head? = some h0) (hX : h0 ∉ X) :
    replaceAll pat rep X = X := by
  have h := replaceAll_skip pat rep h0 X [] hp hX
  simpa [replaceAll_nil] using h

theorem removeTagsF_no_lt :
    ∀ (f : Nat) (s : List Char), s.length ≤ f → '<' ∉ s → removeTagsF f s = s := by
  intro f
  induction f with
  | zero =>
    intro s hs _
    have hnil : s = [] := List.length_eq_zero.mp (Nat.le_zero.mp hs)
    subst hnil
    rfl
  | succ f ih =>
    intro s hs h
    cases s with
    | nil => rfl
    | cons c cs =>
      have hc : c ≠ '<' := fun he => h (he ▸ List.mem_cons_self c cs)
      unfold removeTagsF
      rw [if_neg hc]
      congr 1
      exact ih cs (by simpa using hs) (fun hm => h (List.mem_cons_of_mem c hm))

theorem removeTags_no_lt (s : List Char) (h : '<' ∉ s) : removeTags s = s :=
  removeTagsF_no_lt s.length s le_rfl h

theorem dropWhile_head_false (p : Char → Bool) (s : List Char)
    (h : ∀ c, s.head? = some c → p c = false) : s.dropWhile p = s := by
  cases s with
  | nil => rfl
  | cons c cs =>
    have hc := h c rfl
    simp [List.dropWhile_cons, hc]

theorem stripEnds (p : Char → Bool) (s : List Char)
    (h1 : ∀ c, s.head? = some c → p c = false)
    (h2 : ∀ c, s.getLast? = some c → p c = false) :
    ((s.dropWhile p).reverse.dropWhile p).reverse = s := by
  rw [dropWhile_head_false p s h1]
  rw [dropWhile_head_false p s.reverse
    (fun c hc => h2 c (by rwa [List.head?_reverse] at hc))]
  exact List.reverse_reverse s

theorem head?_mem {c : Char} {s : List Char} (h : s.head? = some c) : c ∈ s := by
  cases s with
  | nil => simp at h
  | cons x xs =>
    simp only [List.head?_cons, Option.some.injEq] at h
    exact h ▸ List.mem_cons_self x xs

theorem getLast?_mem {c : Char} {s : List Char} (h : s.getLast? = some c) : c ∈ s := by
  rw [← List.head?_reverse] at h
  have := head?_mem h
  simpa using this

theorem head?_append_left {A : List Char} (B : List Char) (h : A ≠ []) :
    (A ++ B).head? = A.head? := by
  cases A with
  | nil => exact absurd rfl h
  | cons a as => rfl

theorem getLast?_append_right (A : List Char) {B : List Char} (h : B ≠ []) :
    (A ++ B).getLast? = B.getLast? := by
  rw [← List.head?_reverse, ← List.head?_reverse (l := B), List.reverse_append]
  exact head?_append_left A.reverse (by simpa using h)

theorem append_ne_nil_left {A B : List Char} (h : A ≠ []) : A ++ B ≠ [] := by
  intro he
  rcases List.append_eq_nil.mp he with ⟨h1, _⟩
  exact h h1

theorem append_ne_nil_right {A B : List Char} (h : B ≠ []) : A ++ B ≠ [] := by
  intro he
  rcases List.append_eq_nil.mp he with ⟨_, h2⟩
  exact h h2

theorem stripWs_no_ws (s : List Char) (h : ∀ c ∈ s, wsChar c = false) :
    pyStripWs s = s :=
  stripEnds wsChar s (fun c hc => h c (head?_mem hc)) (fun c hc => h c (getLast?_mem hc))

theorem stripWs_of_ends (s : List Char)
    (h1 : ∀ c, s.head? = some c → wsChar c = false)
    (h2 : ∀ c, s.getLast? = some c → wsChar c = false) : pyStripWs s = s :=
  stripEnds wsChar s h1 h2

theorem stripChars_of_ends (s : List Char)
    (h1 : ∀ c, s.head? = some c → stripSet.contains c = false)
    (h2 : ∀ c, s.getLast? = some c → stripSet.contains c = false) :
    pyStripChars stripSet s = s :=
  stripEnds (stripSet.contains ·) s h1 h2

/-- The normalization core for the bracket obfuscation: on
`local[at]domain[dot]tld` built from marker-free, whitespace-free parts,
the cleaning pipeline collapses exactly the two markers. -/
theorem cleanPipeline_bracket (l d t : String)
    (hlne : l.data ≠ []) (htne : t.data ≠ [])
    (hlw : ∀ c ∈ l.data, wsChar c = false)
    (hdw : ∀ c ∈ d.data, wsChar c = false)
    (htw : ∀ c ∈ t.data, wsChar c = false)
    (hlt : '<' ∉ l.data) (hdt : '<' ∉ d.data) (htt : '<' ∉ t.data)
    (hlb : '[' ∉ l.data) (hdb : '[' ∉ d.data) (htb : '[' ∉ t.data)
    (hlp : '(' ∉ l.data) (hdp : '(' ∉ d.data) (htp : '(' ∉ t.data)
    (hhead : ∀ c, l.data.head? = some c → stripSet.contains c = false)
    (hlast : ∀ c, t.data.getLast? = some c → stripSet.contains c = false) :
    cleanPipeline ((l ++ "[at]" ++ d ++ "[dot]" ++ t).data)
      = l.data ++ ('@' :: (d.data ++ ('.' :: t.data))) := by
  have hdata : (l ++ "[at]" ++ d ++ "[dot]" ++ t).data
      = l.data ++ ("[at]".data ++ (d.data ++ ("[dot]".data ++ t.data))) := by
    simp [data_append]
  rw [hdata]
  unfold cleanPipeline
  have hlt_all : '<' ∉ l.data ++ ("[at]".data ++ (d.data ++ ("[dot]".data ++ t.data))) := by
    intro hm
    simp only [List.mem_append] at hm
    rcases hm with hm | hm | hm | hm | hm
    · exact hlt hm
    · exact absurd hm (by decide)
    · exact hdt hm
    · exact absurd hm (by decide)
    · exact htt hm
  rw [removeTags_no_lt _ hlt_all]
  have hws_all : ∀ c ∈ l.data ++ ("[at]".data ++ (d.data ++ ("[dot]".data ++ t.data))),
      wsChar c = false := by
    intro c hc
    simp only [List.mem_append] at hc
    rcases hc with hc | hc | hc | hc | hc
    · exact hlw c hc
    · have hc2 : c ∈ ['[', 'a', 't', ']'] := hc
      fin_cases hc2 <;> rfl
    · exact hdw c hc
    · have hc2 : c ∈ ['[', 'd', 'o', 't', ']'] := hc
      fin_cases hc2 <;> rfl
    · exact htw c hc
  rw [stripWs_no_ws _ hws_all]
  rw [replaceAll_skip "[at]".data "@".data '[' l.data _ rfl hlb]
  rw [replaceAll_head "[at]".data "@".data _ (by decide)]
  rw [replaceAll_skip "[at]".data "@".data '[' d.data _ rfl hdb]
  have harg1 : "[dot]".data ++ t.data = '[' :: ('d' :: 'o' :: 't' :: ']' :: t.data) := rfl
  rw [harg1]
  have hnm1 : ¬ ("[at]".data.isPrefixOf ('[' :: ('d' :: 'o' :: 't' :: ']' :: t.data))) = true := by
    rw [List.isPrefixOf_iff_prefix]
    intro hpre
    have h1 := List.cons_prefix_cons.mp hpre
    have h2 := List.cons_prefix_cons.mp h1.2
    exact absurd h2.1 (by decide)
  rw [replaceAll_cons_nomatch _ _ _ _ hnm1]
  have hni1 : '[' ∉ ('d' :: 'o' :: 't' :: ']' :: t.data) := by
    intro hm
    simp only [List.mem_cons] at hm
    rcases hm with h | h | h | h | h
    · exact absurd h (by decide)
    · exact absurd h (by decide)
    · exact absurd h (by decide)
    · exact absurd h (by decide)
    · exact htb h
  rw [replaceAll_nooccur "[at]".data "@".data '[' _ rfl hni1]
  rw [← harg1]
  have hpar1 : '(' ∉ l.data ++ ("@".data ++ (d.data ++ ("[dot]".data ++ t.data))) := by
    intro hm
    simp only [List.mem_append] at hm
    rcases hm with hm | hm | hm | hm | hm
    · exact hlp hm
    · exact absurd hm (by decide)
    · exact hdp hm
    · exact absurd hm (by decide)
    · exact htp hm
  rw [replaceAll_nooccur "(at)".data "@".data '(' _ rfl hpar1]
  rw [replaceAll_skip "[dot]".data ".".data '[' l.data _ rfl hlb]
  rw [replaceAll_skip "[dot]".data ".".data '[' "@".data _ rfl (by decide)]
  rw [replaceAll_skip "[dot]".data ".".data '[' d.data _ rfl hdb]
  rw [replaceAll_head "[dot]".data ".".data t.data (by decide)]
  rw [replaceAll_nooccur "[dot]".data ".".data '[' t.data rfl htb]
  have hpar2 : '(' ∉ l.data ++ ("@".data ++ (d.data ++ (".".data ++ t.data))) := by
    intro hm
    simp only [List.mem_append] at hm
    rcases hm with hm | hm | hm | hm | hm
    · exact hlp hm
    · exact absurd hm (by decide)
    · exact hdp hm
    · exact absurd hm (by decide)
    · exact htp hm
  rw [replaceAll_nooccur "(dot)".data ".".data '(' _ rfl hpar2]
  have hfil : ∀ c ∈ l.data ++ ("@".data ++ (d.data ++ (".".data ++ t.data))),
      (!wsChar c) = true := by
    intro c hc
    simp only [List.mem_append] at hc
    rcases hc with hc | hc | hc | hc | hc
    · simp [hlw c hc]
    · have hc2 : c ∈ ['@'] := hc
      fin_cases hc2 <;> rfl
    · simp [hdw c hc]
    · have hc2 : c ∈ ['.'] := hc
      fin_cases hc2 <;> rfl
    · simp [htw c hc]
  rw [List.filter_eq_self.mpr hfil]
  have hstrip : pyStripChars stripSet
      (l.data ++ ("@".data ++ (d.data ++ (".".data ++ t.data))))
      = l.data ++ ("@".data ++ (d.data ++ (".".data ++ t.data))) := by
    apply stripChars_of_ends
    · intro c hc
      rw [head?_append_left _ hlne] at hc
      exact hhead c hc
    · intro c hc
      rw [getLast?_append_right l.data (append_ne_nil_left (by decide)),
        getLast?_append_right "@".data (append_ne_nil_right (append_ne_nil_left (by decide))),
        getLast?_append_right d.data (append_ne_nil_left (by decide)),
        getLast?_append_right ".".data htne] at hc
      exact hlast c hc
  rw [hstrip]
  rfl

/-- The normalization core for the parenthesis obfuscation with incidental
whitespace: on `local (at) domain (dot) tld` the pipeline collapses the
markers and the whitespace removal erases the blanks. -/
theorem cleanPipeline_paren (l d t : String)
    (hlne : l.data ≠ []) (htne : t.data ≠ [])
    (hlw : ∀ c ∈ l.data, wsChar c = false)
    (hdw : ∀ c ∈ d.data, wsChar c = false)
    (htw : ∀ c ∈ t.data, wsChar c = false)
    (hlt : '<' ∉ l.data) (hdt : '<' ∉ d.data) (htt : '<' ∉ t.data)
    (hlb : '[' ∉ l.data) (hdb : '[' ∉ d.data) (htb : '[' ∉ t.data)
    (hlp : '(' ∉ l.data) (hdp : '(' ∉ d.data) (htp : '(' ∉ t.data)
    (hhead : ∀ c, l.data.head? = some c → stripSet.contains c = false)
    (hlast : ∀ c, t.data.getLast? = some c → stripSet.contains c = false) :
    cleanPipeline ((l ++ " (at) " ++ d ++ " (dot) " ++ t).data)
      = l.data ++ ('@' :: (d.data ++ ('.' :: t.data))) := by
  have hdata : (l ++ " (at) " ++ d ++ " (dot) " ++ t).data
      = l.data ++ (" (at) ".data ++ (d.data ++ (" (dot) ".data ++ t.data))) := by
    simp [data_append]
  rw [hdata]
  unfold cleanPipeline
  have hlt_all : '<' ∉ l.data ++ (" (at) ".data ++ (d.data ++ (" (dot) ".data ++ t.data))) := by
    intro hm
    simp only [List.mem_append] at hm
    rcases hm with hm | hm | hm | hm | hm
    · exact hlt hm
    · exact absurd hm (by decide)
    · exact hdt hm
    · exact absurd hm (by decide)
    · exact htt hm
  rw [removeTags_no_lt _ hlt_all]
  have hsw : pyStripWs (l.data ++ (" (at) ".data ++ (d.data ++ (" (dot) ".data ++ t.data))))
      = l.data ++ (" (at) ".data ++ (d.data ++ (" (dot) ".data ++ t.data))) := by
    apply stripWs_of_ends
    · intro c hc
      rw [head?_append_left _ hlne] at hc
      exact hlw c (head?_mem hc)
    · intro c hc
      rw [getLast?_append_right l.data (append_ne_nil_left (by decide)),
        getLast?_append_right " (at) ".data (append_ne_nil_right (append_ne_nil_left (by decide))),
        getLast?_append_right d.data (append_ne_nil_left (by decide)),
        getLast?_append_right " (dot) ".data htne] at hc
      exact htw c (getLast?_mem hc)
  rw [hsw]
  have hbr_all : '[' ∉ l.data ++ (" (at) ".data ++ (d.data ++ (" (dot) ".data ++ t.data))) := by
    intro hm
    simp only [List.mem_append] at hm
    rcases hm with hm | hm | hm | hm | hm
    · exact hlb hm
    · exact absurd hm (by decide)
    · exact hdb hm
    · exact absurd hm (by decide)
    · exact htb hm
  rw [replaceAll_nooccur "[at]".data "@".data '[' _ rfl hbr_all]
  -- the (at) marker
  have hsplit1 : " (at) ".data ++ (d.data ++ (" (dot) ".data ++ t.data))
      = (' ' :: []) ++ ("(at)".data ++ ((' ' :: []) ++ (d.data ++ (" (dot) ".data ++ t.data)))) := rfl
  rw [hsplit1]
  rw [replaceAll_skip "(at)".data "@".data '(' l.data _ rfl hlp]
  rw [replaceAll_skip "(at)".data "@".data '(' (' ' :: []) _ rfl (by decide)]
  rw [replaceAll_head "(at)".data "@".data _ (by decide)]
  rw [replaceAll_skip "(at)".data "@".data '(' (' ' :: []) _ rfl (by decide)]
  rw [replaceAll_skip "(at)".data "@".data '(' d.data _ rfl hdp]
  have hsplit2 : " (dot) ".data ++ t.data
      = (' ' :: []) ++ ('(' :: ('d' :: 'o' :: 't' :: ')' :: (' ' :: t.data))) := rfl
  rw [hsplit2]
  rw [replaceAll_skip "(at)".data "@".data '(' (' ' :: []) _ rfl (by decide)]
  have hnm2 : ¬ ("(at)".data.isPrefixOf
      ('(' :: ('d' :: 'o' :: 't' :: ')' :: (' ' :: t.data)))) = true := by
    rw [List.isPrefixOf_iff_prefix]
    intro hpre
    have h1 := List.cons_prefix_cons.mp hpre
    have h2 := List.cons_prefix_cons.mp h1.2
    exact absurd h2.1 (by decide)
  rw [replaceAll_cons_nomatch _ _ _ _ hnm2]
  have hni2 : '(' ∉ ('d' :: 'o' :: 't' :: ')' :: (' ' :: t.data)) := by
    intro hm
    simp only [List.mem_cons] at hm
    rcases hm with h | h | h | h | h | h
    · exact absurd h (by decide)
    · exact absurd h (by decide)
    · exact absurd h (by decide)
    · exact absurd h (by decide)
    · exact absurd h (by decide)
    · exact htp h
  rw [replaceAll_nooccur "(at)".data "@".data '(' _ rfl hni2]
  -- the [dot] marker does not occur
  have hbr2 : '[' ∉ l.data ++ ((' ' :: []) ++ ("@".data ++ ((' ' :: []) ++ (d.data ++
      ((' ' :: []) ++ ('(' :: ('d' :: 'o' :: 't' :: ')' :: (' ' :: t.data)))))))) := by
    intro hm
    simp only [List.mem_append, List.mem_cons] at hm
    rcases hm with hm | hm | hm | hm | hm | hm | hm | hm | hm | hm | hm | hm | hm
    all_goals first
      | exact hlb hm
      | exact hdb hm
      | exact htb hm
      | exact absurd hm (by decide)
  rw [replaceAll_nooccur "[dot]".data ".".data '[' _ rfl hbr2]
  -- the (dot) marker
  rw [replaceAll_skip "(dot)".data ".".data '(' l.data _ rfl hlp]
  rw [replaceAll_skip "(dot)".data ".".data '(' (' ' :: []) _ rfl (by decide)]
  rw [replaceAll_skip "(dot)".data ".".data '(' "@".data _ rfl (by decide)]
  rw [replaceAll_skip "(dot)".data ".".data '(' (' ' :: []) _ rfl (by decide)]
  rw [replaceAll_skip "(dot)".data ".".data '(' d.data _ rfl hdp]
  rw [replaceAll_skip "(dot)".data ".".data '(' (' ' :: []) _ rfl (by decide)]
  have hsplit3 : ('(' :: ('d' :: 'o' :: 't' :: ')' :: (' ' :: t.data)))
      = "(dot)".data ++ (' ' :: t.data) := rfl
  rw [hsplit3]
  rw [replaceAll_head "(dot)".data ".".data _ (by decide)]
  have hni3 : '(' ∉ (' ' :: t.data) := by
    intro hm
    simp only [List.mem_cons] at hm
    rcases hm with h | h
    · exact absurd h (by decide)
    · exact htp h
  rw [replaceAll_nooccur "(dot)".data ".".data '(' _ rfl hni3]
  -- the whitespace removal
  have hfl : l.data.filter (fun c => !wsChar c) = l.data :=
    List.filter_eq_self.mpr (fun c hc => by simp [hlw c hc])
  have hfd : d.data.filter (fun c => !wsChar c) = d.data :=
    List.filter_eq_self.mpr (fun c hc => by simp [hdw c hc])
  have hft : t.data.filter (fun c => !wsChar c) = t.data :=
    List.filter_eq_self.mpr (fun c hc => by simp [htw c hc])
  have hfsp : (' ' :: []).filter (fun c => !wsChar c) = [] := rfl
  have hfat : "@".data.filter (fun c => !wsChar c) = "@".data := rfl
  have hfdot : ".".data.filter (fun c => !wsChar c) = ".".data := rfl
  have hfspc : (' ' :: t.data).filter (fun c => !wsChar c) = t.data.filter (fun c => !wsChar c) := by
    rw [List.filter_cons]
    rw [if_neg (by decide)]
  simp only [List.filter_append, hfl, hfd, hfsp, hfat, hfdot, hfspc, hft,
    List.nil_append, List.append_nil]
  -- final strip
  have hstrip : pyStripChars stripSet
      (l.data ++ ("@".data ++ (d.data ++ (".".data ++ t.data))))
      = l.data ++ ("@".data ++ (d.data ++ (".".data ++ t.data))) := by
    apply stripChars_of_ends
    · intro c hc
      rw [head?_append_left _ hlne] at hc
      exact hhead c hc
    · intro c hc
      rw [getLast?_append_right l.data (append_ne_nil_left (by decide)),
        getLast?_append_right "@".data (append_ne_nil_right (append_ne_nil_left (by decide))),
        getLast?_append_right d.data (append_ne_nil_left (by decide)),
        getLast?_append_right ".".data htne] at hc
      exact hlast c hc
  rw [hstrip]
  rfl

/-- Side conditions under which an obfuscated address round-trips: nonempty
local part and TLD, no whitespace or marker characters inside the three
components, and ends that survive the final punctuation strip.  Packaged as
decidable boolean facts so a concrete instance evaluates. -/
def obfuscationParts (l d t : String) : Prop :=
  l.data ≠ [] ∧ t.data ≠ [] ∧
  l.data.all (fun c => !wsChar c) = true ∧
  d.data.all (fun c => !wsChar c) = true ∧
  t.data.all (fun c => !wsChar c) = true ∧
  l.data.all (fun c => decide (c ≠ '<' ∧ c ≠ '[' ∧ c ≠ '(')) = true ∧
  d.data.all (fun c => decide (c ≠ '<' ∧ c ≠ '[' ∧ c ≠ '(')) = true ∧
  t.data.all (fun c => decide (c ≠ '<' ∧ c ≠ '[' ∧ c ≠ '(')) = true ∧
  l.data.head?.all (fun c => !stripSet.contains c) = true ∧
  t.data.getLast?.all (fun c => !stripSet.contains c) = true

instance (l d t : String) : Decidable (obfuscationParts l d t) := by
  unfold obfuscationParts
  infer_instance

theorem obfuscationParts_unpack (l d t : String) (h : obfuscationParts l d t) :
    l.data ≠ [] ∧ t.data ≠ [] ∧
    (∀ c ∈ l.data, wsChar c = false) ∧ (∀ c ∈ d.data, wsChar c = false) ∧
    (∀ c ∈ t.data, wsChar c = false) ∧
    '<' ∉ l.data ∧ '<' ∉ d.data ∧ '<' ∉ t.data ∧
    '[' ∉ l.data ∧ '[' ∉ d.data ∧ '[' ∉ t.data ∧
    '(' ∉ l.data ∧ '(' ∉ d.data ∧ '(' ∉ t.data ∧
    (∀ c, l.data.head? = some c → stripSet.contains c = false) ∧
    (∀ c, t.data.getLast? = some c → stripSet.contains c = false) := by
  obtain ⟨hlne, htne, hlw, hdw, htw, hlm, hdm, htm, hh, hg⟩ := h
  have hws : ∀ (s : List Char), s.all (fun c => !wsChar c) = true →
      ∀ c ∈ s, wsChar c = false := by
    intro s hs c hc
    have := List.all_eq_true.mp hs c hc
    simpa using this
  have hmk : ∀ (s : List Char) (c0 : Char),
      s.all (fun c => decide (c ≠ '<' ∧ c ≠ '[' ∧ c ≠ '(')) = true →
      (c0 = '<' ∨ c0 = '[' ∨ c0 = '(') → c0 ∉ s := by
    intro s c0 hs hc0 hm
    have := List.all_eq_true.mp hs c0 hm
    rw [decide_eq_true_eq] at this
    rcases hc0 with h0 | h0 | h0
    · exact this.1 h0
    · exact this.2.1 h0
    · exact this.2.2 h0
  refine ⟨hlne, htne, hws _ hlw, hws _ hdw, hws _ htw,
    hmk _ _ hlm (Or.inl rfl), hmk _ _ hdm (Or.inl rfl), hmk _ _ htm (Or.inl rfl),
    hmk _ _ hlm (Or.inr (Or.inl rfl)), hmk _ _ hdm (Or.inr (Or.inl rfl)),
    hmk _ _ htm (Or.inr (Or.inl rfl)),
    hmk _ _ hlm (Or.inr (Or.inr rfl)), hmk _ _ hdm (Or.inr (Or.inr rfl)),
    hmk _ _ htm (Or.inr (Or.inr rfl)), ?_, ?_⟩
  · intro c hc
    rw [hc] at hh
    simpa using hh
  · intro c hc
    rw [hc] at hg
    simpa using hg

theorem clean_email_of_pipeline (E R : String)
    (hne : E.data ≠ []) (hp : cleanPipeline E.data = R.data) (hRne : R.data ≠ []) :
    clean_email E = some R := by
  unfold clean_email
  rw [if_neg (fun he => hne (by rw [he]))]
  rw [hp]
  rw [if_neg (fun he => hRne (by simpa using he))]

theorem clean_email_bracket (l d t : String) (h : obfuscationParts l d t) :
    clean_email (l ++ "[at]" ++ d ++ "[dot]" ++ t) = some (l ++ "@" ++ d ++ "." ++ t) := by
  obtain ⟨hlne, htne, hlw, hdw, htw, hlt, hdt, htt, hlb, hdb, htb, hlp, hdp, htp, hh, hg⟩ :=
    obfuscationParts_unpack l d t h
  apply clean_email_of_pipeline
  · exact append_ne_nil_left (append_ne_nil_left (append_ne_nil_left
      (append_ne_nil_left hlne)))
  · rw [cleanPipeline_bracket l d t hlne htne hlw hdw htw hlt hdt htt hlb hdb htb
      hlp hdp htp hh hg]
    simp [data_append]
  · exact append_ne_nil_left (append_ne_nil_left (append_ne_nil_left
      (append_ne_nil_left hlne)))

theorem clean_email_paren (l d t : String) (h : obfuscationParts l d t) :
    clean_email (l ++ " (at) " ++ d ++ " (dot) " ++ t) = some (l ++ "@" ++ d ++ "." ++ t) := by
  obtain ⟨hlne, htne, hlw, hdw, htw, hlt, hdt, htt, hlb, hdb, htb, hlp, hdp, htp, hh, hg⟩ :=
    obfuscationParts_unpack l d t h
  apply clean_email_of_pipeline
  · exact append_ne_nil_left (append_ne_nil_left (append_ne_nil_left
      (append_ne_nil_left hlne)))
  · rw [cleanPipeline_paren l d t hlne htne hlw hdw htw hlt hdt htt hlb hdb htb
      hlp hdp htp hh hg]
    simp [data_append]
  · exact append_ne_nil_left (append_ne_nil_left (append_ne_nil_left
      (append_ne_nil_left hlne)))

/-- C5 (corrected): normalization maps the bracket obfuscation
`local[at]domain[dot]tld` back to `local@domain.tld`, and the parenthesis
obfuscation survives incidental whitespace around its markers
(`local (at) domain (dot) tld` also normalizes); but the bracket markers do
NOT tolerate surrounding whitespace at extraction time — the bracket pattern
has no `\s*` — so `"Contact us: info [at] acme [dot] com"` extracts nothing,
while the unspaced bracket text and the spaced parenthesis text both yield
`info@acme.com`. -/
theorem c5_normalization_round_trip :
    (∀ l d t : String, obfuscationParts l d t →
      clean_email (l ++ "[at]" ++ d ++ "[dot]" ++ t) = some (l ++ "@" ++ d ++ "." ++ t)) ∧
    (∀ l d t : String, obfuscationParts l d t →
      clean_email (l ++ " (at) " ++ d ++ " (dot) " ++ t) = some (l ++ "@" ++ d ++ "." ++ t)) ∧
    extract_emails_from_text "Contact us: info[at]acme[dot]com" = ["info@acme.com"] ∧
    extract_emails_from_text "Contact us: info (at) acme (dot) com" = ["info@acme.com"] := by
  refine ⟨clean_email_bracket, clean_email_paren, ?_, ?_⟩
  · decide
  · decide

/-- C5 counterexample: the claim says the spaced bracket text yields
`{info@acme.com}`, but the bracket pattern in the source has no `\s*`, so
extraction finds nothing there. -/
theorem c5_spaced_bracket_counterexample :
    extract_emails_from_text "Contact us: info [at] acme [dot] com" = [] := by
  decide

theorem c5_normalization_witness :
    clean_email ("info" ++ "[at]" ++ "acme" ++ "[dot]" ++ "com")
      = some ("info" ++ "@" ++ "acme" ++ "." ++ "com") ∧
    clean_email ("info" ++ " (at) " ++ "acme" ++ " (dot) " ++ "com")
      = some ("info" ++ "@" ++ "acme" ++ "." ++ "com") :=
  ⟨c5_normalization_round_trip.1 "info" "acme" "com" (by decide),
   c5_normalization_round_trip.2.1 "info" "acme" "com" (by decide)⟩

end ClaimC5

section ScratchTests2

open EmailExtractor

example : is_valid_email "info@acme.com" = true := by decide
example : is_valid_email "someone@mail.doubleclick.net" = true := by decide
example : is_valid_email "a@doubleclick.net" = false := by decide
example : clean_email "info [at] acme [dot] com" = some "info@acme.com" := by decide
example : scoreT "info@acme.com" = some 10 := by decide
example : scoreT "someone@mail.doubleclick.net" = some 8 := by decide
example : deduplicate_parsing_errors ["123sales@acme.com", "sales@acme.com"]
    = ["sales@acme.com"] := by decide

end ScratchTests2
